/-
Verification of the marqeta-mcp request-shaping and rate-limiting pipeline.

Shallow embedding of:
  * src/dist/src/client/rate-limiter.js   (RateLimiter)
  * src/dist/src/client/http-client.js    (HttpClient.executeToolRequest)
  * src/dist/src/parser/schema-converter.js
      (SchemaConverter.openApiToJsonSchema / resolveRef / jsonSchemaToZod)
  * src/dist/src/index.js                 (MarqetaMcpServer.createToolHandler)

JavaScript values are modelled by `JsValue` (numbers as exact rationals),
asynchronous interleaving by an explicit small-step operation machine, and
the zod validator library by a deep `ZodType` plus a parse function that
follows zod v3 semantics for exactly the combinators the source constructs.
-/
import Mathlib

namespace MarqetaMcp

/-- A JavaScript/JSON value.  Objects are ordered association lists (JS
objects preserve insertion order and have no duplicate keys); numbers are
modelled as exact rationals. -/
inductive JsValue where
  | null
  | bool (b : Bool)
  | num (q : Rat)
  | str (s : String)
  | arr (xs : List JsValue)
  | obj (fields : List (String × JsValue))

/-- JavaScript truthiness of a value: `null`, `false`, `0`, `NaN` and the
empty string are falsy, everything else is truthy. -/
def truthy : JsValue → Bool
  | .null => false
  | .bool b => b
  | .num q => q != 0
  | .str s => s ≠ ""
  | .arr _ => true
  | .obj _ => true

/-- Truthiness of a possibly-undefined value (`undefined` is falsy). -/
def truthyOpt : Option JsValue → Bool
  | none => false
  | some v => truthy v

/-- First-match lookup in an object's field list (JS property read). -/
def lookupField (fields : List (String × JsValue)) (key : String) : Option JsValue :=
  match fields with
  | [] => none
  | (k, v) :: rest => if k = key then some v else lookupField rest key

/-- Property read `v[key]` on a JsValue: objects by key, arrays by numeric
index.  Indexing into other values (notably JS string character access) is
not modelled and yields `undefined`; no claim exercises it. -/
def jsIndex (v : JsValue) (key : String) : Option JsValue :=
  match v with
  | .obj fields => lookupField fields key
  | .arr xs =>
      match key.toNat? with
      | some i => xs.get? i
      | none => none
  | _ => none

/-- Shorthand for a property read on a schema object. -/
def jsGet (v : JsValue) (key : String) : Option JsValue := jsIndex v key

/-- Set a key in an object's field list: overwrite in place if present
(keeping its position, as JS does), otherwise append. -/
def setField (fields : List (String × JsValue)) (key : String) (v : JsValue) :
    List (String × JsValue) :=
  match fields with
  | [] => [(key, v)]
  | (k, w) :: rest =>
      if k = key then (k, v) :: rest else (k, w) :: setField rest key v

mutual
/-- Size measure on JsValue used for termination of schema recursions. -/
def jsz : JsValue → Nat
  | .null => 1
  | .bool _ => 1
  | .num _ => 1
  | .str _ => 1
  | .arr xs => 1 + jszList xs
  | .obj fields => 1 + jszFields fields

/-- Size of a list of values. -/
def jszList : List JsValue → Nat
  | [] => 0
  | x :: xs => 1 + jsz x + jszList xs

/-- Size of an object's field list. -/
def jszFields : List (String × JsValue) → Nat
  | [] => 0
  | (_, v) :: rest => 1 + jsz v + jszFields rest
end

theorem jsz_pos (v : JsValue) : 1 ≤ jsz v := by
  cases v <;> simp [jsz]

theorem jsz_lt_of_mem_list {x : JsValue} {xs : List JsValue} (h : x ∈ xs) :
    jsz x < jsz (.arr xs) := by
  simp only [jsz]
  induction xs with
  | nil => cases h
  | cons y ys ih =>
      rw [List.mem_cons] at h
      rcases h with h | h
      · subst h; simp [jszList]; omega
      · have := ih h
        simp [jszList] at this ⊢
        omega

theorem jsz_lt_of_mem_fields {k : String} {v : JsValue}
    {fields : List (String × JsValue)} (h : (k, v) ∈ fields) :
    jsz v < jsz (.obj fields) := by
  simp only [jsz]
  induction fields with
  | nil => cases h
  | cons f fs ih =>
      rw [List.mem_cons] at h
      rcases h with h | h
      · rw [← h]; simp [jszFields]; omega
      · have := ih h
        cases f with
        | mk k' v' =>
            simp [jszFields] at this ⊢
            omega

theorem lookupField_mem {fields : List (String × JsValue)} {key : String}
    {v : JsValue} (h : lookupField fields key = some v) : (key, v) ∈ fields := by
  induction fields with
  | nil => simp [lookupField] at h
  | cons f fs ih =>
      cases f with
      | mk k w =>
          by_cases hk : k = key
          · subst hk
            simp [lookupField] at h
            simp [h]
          · simp [lookupField, hk] at h
            exact List.mem_cons_of_mem _ (ih h)

theorem jsz_lt_of_jsGet {v u : JsValue} {key : String}
    (h : jsGet v key = some u) : jsz u < jsz v := by
  cases v with
  | obj fields => exact jsz_lt_of_mem_fields (lookupField_mem h)
  | arr xs =>
      simp only [jsGet, jsIndex] at h
      cases hk : key.toNat? with
      | none => rw [hk] at h; simp at h
      | some i =>
          rw [hk] at h
          have h' : xs.get? i = some u := h
          exact jsz_lt_of_mem_list (List.get?_mem h')
  | null => simp [jsGet, jsIndex] at h
  | bool b => simp [jsGet, jsIndex] at h
  | num q => simp [jsGet, jsIndex] at h
  | str s => simp [jsGet, jsIndex] at h

/-- JS `String(q)` on a number, approximated for exact rationals: integers
print without a fractional part. -/
def jsNumToString (q : Rat) : String :=
  if q.den = 1 then toString q.num else toString q

mutual
/-- JS `String(value)` conversion: strings unchanged, `null` prints as
`null`, arrays join their elements with commas (`null` elements print as
the empty string), plain objects print as `[object Object]`. -/
def jsToString : JsValue → String
  | .null => "null"
  | .bool b => if b then "true" else "false"
  | .num q => jsNumToString q
  | .str s => s
  | .arr xs => jsArrToString xs
  | .obj _ => "[object Object]"

/-- Comma-joined rendering of array elements, as `Array.prototype.join`
(`null` elements render as the empty string). -/
def jsArrToString : List JsValue → String
  | [] => ""
  | [.null] => ""
  | [x] => jsToString x
  | .null :: rest => "," ++ jsArrToString rest
  | x :: rest => jsToString x ++ "," ++ jsArrToString rest
end

/-! ## Rate limiter (src/dist/src/client/rate-limiter.js)

The limiter's asynchronous behaviour is modelled as a small-step operation
machine over an explicit state.  JavaScript's single-threaded cooperative
scheduling means each state mutation in the source runs atomically between
`await` points; every such atomic mutation is one machine operation, and
an arbitrary interleaving of operations covers every possible schedule. -/

/-- A JS `Error` object as the source constructs them, including the extra
fields `createQueueFullError` attaches. -/
structure JsError where
  name : String
  message : String
  retryAfter : Option Nat := none
  queueLength : Option Nat := none
  maxQueueSize : Option Nat := none
  deriving DecidableEq

/-- A JS rejection value: either an `instanceof Error` object or any other
value. -/
inductive JsRejection where
  | error (e : JsError)
  | value (v : JsValue)

/-- Settlement of a promise: fulfilled with a value or rejected with a
rejection value. -/
inductive Outcome where
  | fulfilled (v : JsValue)
  | rejected (r : JsRejection)

namespace RateLimiter

/-- `RateLimiter.executeRequest` (rate-limiter.js lines 92-100): awaits the
work item and forwards its outcome to the caller's promise, except that a
rejection value that is not an `Error` instance is wrapped as
`new Error(String(error))`. -/
def executeRequest (o : Outcome) : Outcome :=
  match o with
  | .fulfilled v => .fulfilled v
  | .rejected (.error e) => .rejected (.error e)
  | .rejected (.value v) =>
      .rejected (.error { name := "Error", message := jsToString v })

/-- Rate limiter configuration after construction (all bounds validated,
hence natural numbers).  Defaults when neither the caller nor the
environment supplies a value: `enabled = true`, `intervalMs = 500`,
`maxConcurrent = 2`, `maxQueueSize = 10`. -/
structure Config where
  enabled : Bool
  intervalMs : Nat
  maxConcurrent : Nat
  maxQueueSize : Nat
  deriving DecidableEq

/-- The constructor's validation (rate-limiter.js lines 26-35): raw integer
options are rejected when `intervalMs < 0`, `maxConcurrent < 1` or
`maxQueueSize < 0`. -/
def construct (enabled : Bool) (intervalMs maxConcurrent maxQueueSize : Int) :
    Except String Config :=
  if intervalMs < 0 then
    .error "Rate limit interval must be non-negative"
  else if maxConcurrent < 1 then
    .error "Max concurrent requests must be at least 1"
  else if maxQueueSize < 0 then
    .error "Max queue size must be non-negative"
  else
    .ok { enabled := enabled, intervalMs := intervalMs.toNat,
          maxConcurrent := maxConcurrent.toNat, maxQueueSize := maxQueueSize.toNat }

/-- One queued pending request: the work item (identified by the id under
which the environment supplies its outcome) and its enqueue timestamp. -/
structure PendingReq where
  id : Nat
  timestamp : Nat
  deriving DecidableEq

/-- Machine state: the fields of the `RateLimiter` instance plus the clock
(`now`, for `Date.now()`) and observation logs used to state the claims
(`admitted`, `dispatched`, `inFlight`, `settled`, `rejectedFull`,
`cleared`); `nextId` hands out a fresh id to each `execute` call. -/
structure State where
  cfg : Config
  lastRequestTime : Nat
  concurrentRequests : Nat
  requestQueue : List PendingReq
  processing : Bool
  now : Nat
  nextId : Nat
  admitted : List Nat
  dispatched : List (Nat × Nat)
  inFlight : List Nat
  settled : List (Nat × Outcome)
  rejectedFull : List (Nat × JsError)
  cleared : List Nat

/-- A freshly constructed limiter (field values from the class
declaration: `lastRequestTime = 0`, `concurrentRequests = 0`, empty queue,
`processing = false`), observed from clock value `n0`. -/
def init (cfg : Config) (n0 : Nat) : State :=
  { cfg := cfg, lastRequestTime := 0, concurrentRequests := 0,
    requestQueue := [], processing := false, now := n0, nextId := 0,
    admitted := [], dispatched := [], inFlight := [], settled := [],
    rejectedFull := [], cleared := [] }

/-- `estimatedWaitTime` (lines 141-145):
`max(ceil(queueLength / maxConcurrent) * intervalMs, intervalMs)`. -/
def estimatedWaitTime (s : State) : Nat :=
  max (((s.requestQueue.length + s.cfg.maxConcurrent - 1) / s.cfg.maxConcurrent)
        * s.cfg.intervalMs)
      s.cfg.intervalMs

/-- `createQueueFullError` (lines 128-137): an Error named
`RateLimitQueueFullError` carrying `retryAfter`, `queueLength` and
`maxQueueSize`. -/
def createQueueFullError (s : State) : JsError :=
  { name := "RateLimitQueueFullError",
    message := "Rate limit queue is full (" ++ toString s.requestQueue.length
      ++ "/" ++ toString s.cfg.maxQueueSize ++ "). Please retry after "
      ++ toString (estimatedWaitTime s) ++ "ms",
    retryAfter := some (estimatedWaitTime s),
    queueLength := some s.requestQueue.length,
    maxQueueSize := some s.cfg.maxQueueSize }

/-- The atomic operations of the limiter.  `advance` lets the clock move;
`execute` is the synchronous body of `execute` (lines 40-64); `dispatch`
is one drain-loop iteration resuming after both gates are satisfied
(lines 70-85); `settle i` is the `finally` of a dispatched work item
(lines 83-85) together with the delivery of its outcome through
`executeRequest`; `clear` is `clearQueue` (lines 164-171); `finishLoop` is
the drain loop observing an empty queue and exiting (lines 70, 87). -/
inductive Op where
  | advance (d : Nat)
  | execute
  | dispatch
  | settle (i : Nat)
  | clear
  | finishLoop

/-- One machine step.  `env` assigns to each work-item id the outcome the
work item itself eventually produces.  Gates that the source realises by
awaiting (`waitForRateLimit`, `waitForConcurrencySlot`) appear as guards:
a `dispatch` operation whose guard fails leaves the state unchanged,
modelling the drain loop still waiting. -/
def step (env : Nat → Outcome) (s : State) : Op → State
  | .advance d => { s with now := s.now + d }
  | .execute =>
      if s.cfg.enabled = false then
        -- line 42-44: rate limiting skipped, the work item runs unmanaged
        s
      else if s.cfg.maxQueueSize ≤ s.requestQueue.length then
        -- lines 46-51: queue full, reject without enqueueing
        { s with rejectedFull := s.rejectedFull ++ [(s.nextId, createQueueFullError s)],
                 nextId := s.nextId + 1 }
      else
        -- lines 52-62: enqueue and (re)start the drain loop
        { s with requestQueue := s.requestQueue ++ [⟨s.nextId, s.now⟩],
                 admitted := s.admitted ++ [s.nextId],
                 nextId := s.nextId + 1,
                 processing := true }
  | .dispatch =>
      if s.processing = true ∧ s.requestQueue ≠ []
          ∧ s.lastRequestTime + s.cfg.intervalMs ≤ s.now
          ∧ s.concurrentRequests < s.cfg.maxConcurrent then
        match s.requestQueue with
        | [] => s
        | r :: rest =>
            { s with requestQueue := rest,
                     concurrentRequests := s.concurrentRequests + 1,
                     lastRequestTime := s.now,
                     dispatched := s.dispatched ++ [(r.id, s.now)],
                     inFlight := s.inFlight ++ [r.id] }
      else s
  | .settle i =>
      if i ∈ s.inFlight then
        { s with inFlight := s.inFlight.erase i,
                 concurrentRequests := s.concurrentRequests - 1,
                 settled := s.settled ++ [(i, executeRequest (env i))] }
      else s
  | .clear =>
      -- every queued request is rejected with Error("Queue cleared")
      { s with cleared := s.cleared ++ s.requestQueue.map PendingReq.id,
               requestQueue := [] }
  | .finishLoop =>
      if s.processing = true ∧ s.requestQueue = [] then
        { s with processing := false }
      else s

/-- Run a list of operations from a state. -/
def run (env : Nat → Outcome) (s : State) (ops : List Op) : State :=
  ops.foldl (step env) s

/-- The limiter's state invariant: bounded queue, bounded concurrency, the
in-flight list tracks the counter, the clock is ahead of the last dispatch
time, consecutive dispatch start times are at least `intervalMs` apart,
the last dispatch time matches `lastRequestTime`, dispatch order is the
admission (FIFO) order up to cleared requests, and id bookkeeping. -/
structure Inv (s : State) : Prop where
  queue_le : s.requestQueue.length ≤ s.cfg.maxQueueSize
  conc_le : s.concurrentRequests ≤ s.cfg.maxConcurrent
  inflight_len : s.inFlight.length = s.concurrentRequests
  last_le_now : s.lastRequestTime ≤ s.now
  chain : List.Chain' (fun a b => a + s.cfg.intervalMs ≤ b) (s.dispatched.map Prod.snd)
  last_eq : ∀ t, (s.dispatched.map Prod.snd).getLast? = some t → t = s.lastRequestTime
  fifo : s.dispatched.map Prod.fst ++ s.requestQueue.map PendingReq.id
    = s.admitted.filter (fun i => decide (i ∉ s.cleared))
  id_bound : ∀ i ∈ s.admitted, i < s.nextId
  admitted_nodup : s.admitted.Nodup
  cleared_sub : ∀ i ∈ s.cleared, i ∈ s.admitted

theorem inv_init (cfg : Config) (n0 : Nat) : Inv (init cfg n0) := by
  refine ⟨?_, ?_, ?_, ?_, ?_, ?_, ?_, ?_, ?_, ?_⟩ <;> simp [init]

theorem step_cfg (env : Nat → Outcome) (s : State) (op : Op) :
    (step env s op).cfg = s.cfg := by
  cases op <;> simp only [step] <;> (repeat' split) <;> rfl

theorem run_cfg (env : Nat → Outcome) (s : State) (ops : List Op) :
    (run env s ops).cfg = s.cfg := by
  induction ops generalizing s with
  | nil => rfl
  | cons op rest ih => rw [run, List.foldl_cons, ← run, ih, step_cfg]

theorem inv_step (env : Nat → Outcome) (s : State) (op : Op) (h : Inv s) :
    Inv (step env s op) := by
  obtain ⟨h1, h2, h3, h4, h5, h6, h7, h8, h9, h10⟩ := h
  cases op with
  | advance d =>
      exact ⟨h1, h2, h3, Nat.le_trans h4 (Nat.le_add_right _ _), h5, h6, h7, h8, h9, h10⟩
  | execute =>
      by_cases he : s.cfg.enabled = false
      · simp only [step, if_pos he]
        exact ⟨h1, h2, h3, h4, h5, h6, h7, h8, h9, h10⟩
      · by_cases hfull : s.cfg.maxQueueSize ≤ s.requestQueue.length
        · simp only [step, if_neg he, if_pos hfull]
          exact ⟨h1, h2, h3, h4, h5, h6, h7,
            fun i hi => Nat.lt_succ_of_lt (h8 i hi), h9, h10⟩
        · simp only [step, if_neg he, if_neg hfull]
          have hfresh : s.nextId ∉ s.admitted := fun hmem =>
            Nat.lt_irrefl _ (h8 _ hmem)
          refine ⟨?_, h2, h3, h4, h5, h6, ?_, ?_, ?_, ?_⟩ <;> dsimp only
          · simp only [List.length_append, List.length_cons, List.length_nil]
            omega
          · have hnc : s.nextId ∉ s.cleared := fun hc => hfresh (h10 _ hc)
            simp only [List.map_append, List.filter_append, List.map_cons,
              List.map_nil, List.filter_cons, List.filter_nil]
            rw [← List.append_assoc, h7]
            simp [hnc]
          · intro i hi
            rcases List.mem_append.mp hi with hi | hi
            · exact Nat.lt_succ_of_lt (h8 i hi)
            · simp at hi; omega
          · simpa [List.nodup_append] using ⟨h9, hfresh⟩
          · intro i hi
            exact List.mem_append_left _ (h10 i hi)
  | dispatch =>
      by_cases hg : s.processing = true ∧ s.requestQueue ≠ []
          ∧ s.lastRequestTime + s.cfg.intervalMs ≤ s.now
          ∧ s.concurrentRequests < s.cfg.maxConcurrent
      · obtain ⟨hp, hne, hint, hconc⟩ := hg
        simp only [step, if_pos (⟨hp, hne, hint, hconc⟩ :
          s.processing = true ∧ s.requestQueue ≠ []
            ∧ s.lastRequestTime + s.cfg.intervalMs ≤ s.now
            ∧ s.concurrentRequests < s.cfg.maxConcurrent)]
        cases hq : s.requestQueue with
        | nil => exact absurd hq hne
        | cons r rest =>
            have h7' := h7
            rw [hq] at h7'
            refine ⟨?_, hconc, ?_, Nat.le_refl _, ?_, ?_, ?_, h8, h9, h10⟩ <;> dsimp only
            · have := h1; rw [hq] at this; simp at this ⊢; omega
            · simp [h3]
            · simp only [List.map_append, List.map_cons, List.map_nil]
              rw [List.chain'_append]
              refine ⟨h5, List.chain'_singleton _, ?_⟩
              intro x hx y hy
              simp only [List.head?_cons, Option.mem_def, Option.some.injEq] at hy
              subst hy
              rw [h6 x hx]
              exact hint
            · intro t ht
              simp only [List.map_append, List.map_cons, List.map_nil,
                List.getLast?_concat, Option.some.injEq] at ht
              omega
            · simp only [List.map_append, List.map_cons, List.map_nil]
              rw [List.append_assoc]
              simp only [List.singleton_append]
              simpa using h7'
      · simp only [step, if_neg hg]
        exact ⟨h1, h2, h3, h4, h5, h6, h7, h8, h9, h10⟩
  | settle i =>
      by_cases hi : i ∈ s.inFlight
      · simp only [step, if_pos hi]
        refine ⟨h1, Nat.le_trans (Nat.sub_le _ _) h2, ?_, h4, h5, h6, h7, h8, h9, h10⟩
        rw [List.length_erase_of_mem hi, h3]
      · simp only [step, if_neg hi]
        exact ⟨h1, h2, h3, h4, h5, h6, h7, h8, h9, h10⟩
  | clear =>
      have hqsub : ∀ i ∈ s.requestQueue.map PendingReq.id, i ∈ s.admitted := by
        intro i hi
        have : i ∈ s.admitted.filter (fun i => decide (i ∉ s.cleared)) := by
          rw [← h7]; exact List.mem_append_right _ hi
        exact (List.mem_filter.mp this).1
      have hnodup : (s.dispatched.map Prod.fst ++ s.requestQueue.map PendingReq.id).Nodup := by
        rw [h7]; exact h9.filter _
      have hdisj : ∀ i ∈ s.dispatched.map Prod.fst,
          i ∉ s.requestQueue.map PendingReq.id := by
        rw [List.nodup_append] at hnodup
        intro i hi hc
        exact hnodup.2.2 hi hc
      refine ⟨?_, h2, h3, h4, h5, h6, ?_, h8, h9, ?_⟩ <;> dsimp only [step]
      · simp
      · have hsplit : (fun i => decide (i ∉ s.cleared ++ s.requestQueue.map PendingReq.id))
            = fun i => decide (i ∉ s.requestQueue.map PendingReq.id)
                && decide (i ∉ s.cleared) := by
          funext i
          by_cases hc1 : i ∈ s.cleared <;> by_cases hc2 : i ∈ s.requestQueue.map PendingReq.id
            <;> simp [List.mem_append, hc1, hc2]
        rw [hsplit, ← List.filter_filter, ← h7, List.filter_append]
        have hq0 : (s.requestQueue.map PendingReq.id).filter
            (fun i => decide (i ∉ s.requestQueue.map PendingReq.id)) = [] := by
          rw [List.filter_eq_nil_iff]
          intro i hi
          simp [hi]
        have hd1 : (s.dispatched.map Prod.fst).filter
            (fun i => decide (i ∉ s.requestQueue.map PendingReq.id))
            = s.dispatched.map Prod.fst := by
          rw [List.filter_eq_self]
          intro i hi
          simp [hdisj i hi]
        rw [hq0, hd1]
        simp
      · intro i hi
        rcases List.mem_append.mp hi with hi | hi
        · exact h10 i hi
        · exact hqsub i hi
  | finishLoop =>
      by_cases hg : s.processing = true ∧ s.requestQueue = []
      · simp only [step, if_pos hg]
        exact ⟨h1, h2, h3, h4, h5, h6, h7, h8, h9, h10⟩
      · simp only [step, if_neg hg]
        exact ⟨h1, h2, h3, h4, h5, h6, h7, h8, h9, h10⟩

theorem inv_run (env : Nat → Outcome) (s : State) (ops : List Op) (h : Inv s) :
    Inv (run env s ops) := by
  induction ops generalizing s with
  | nil => exact h
  | cons op rest ih =>
      rw [run, List.foldl_cons, ← run]
      exact ih _ (inv_step env s op h)

theorem fresh_step (env : Nat → Outcome) (s : State) (op : Op) (r : Nat)
    (h1 : r < s.nextId) (h2 : r ∉ s.admitted) :
    r < (step env s op).nextId ∧ r ∉ (step env s op).admitted := by
  cases op with
  | execute =>
      by_cases he : s.cfg.enabled = false
      · simp only [step, if_pos he]; exact ⟨h1, h2⟩
      · by_cases hfull : s.cfg.maxQueueSize ≤ s.requestQueue.length
        · simp only [step, if_neg he, if_pos hfull]
          exact ⟨Nat.lt_succ_of_lt h1, h2⟩
        · simp only [step, if_neg he, if_neg hfull]
          refine ⟨Nat.lt_succ_of_lt h1, ?_⟩
          intro hm
          rcases List.mem_append.mp hm with hm | hm
          · exact h2 hm
          · simp at hm; omega
  | advance d => exact ⟨h1, h2⟩
  | dispatch =>
      simp only [step]
      split
      · split <;> exact ⟨h1, h2⟩
      · exact ⟨h1, h2⟩
  | settle i =>
      simp only [step]
      split <;> exact ⟨h1, h2⟩
  | clear => exact ⟨h1, h2⟩
  | finishLoop =>
      simp only [step]
      split <;> exact ⟨h1, h2⟩

theorem fresh_run (env : Nat → Outcome) (s : State) (ops : List Op) (r : Nat)
    (h1 : r < s.nextId) (h2 : r ∉ s.admitted) :
    r ∉ (run env s ops).admitted := by
  induction ops generalizing s with
  | nil => exact h2
  | cons op rest ih =>
      rw [run, List.foldl_cons, ← run]
      obtain ⟨g1, g2⟩ := fresh_step env s op r h1 h2
      exact ih _ g1 g2

theorem mem_dispatched_mem_admitted {s : State} (h : Inv s) {i : Nat}
    (hi : i ∈ s.dispatched.map Prod.fst) : i ∈ s.admitted := by
  have : i ∈ s.admitted.filter (fun i => decide (i ∉ s.cleared)) := by
    rw [← h.fifo]; exact List.mem_append_left _ hi
  exact (List.mem_filter.mp this).1

theorem construct_fields {b : Bool} {i mc mq : Int} {cfg : Config}
    (hc : construct b i mc mq = .ok cfg) :
    cfg.enabled = b ∧ 1 ≤ cfg.maxConcurrent := by
  simp only [construct] at hc
  split at hc
  · cases hc
  · split at hc
    · cases hc
    · split at hc
      · cases hc
      · cases hc
        constructor
        · rfl
        · simp only []
          omega

theorem settled_spec_step (env : Nat → Outcome) (s : State) (op : Op)
    (h : ∀ p ∈ s.settled, p.2 = executeRequest (env p.1)) :
    ∀ p ∈ (step env s op).settled, p.2 = executeRequest (env p.1) := by
  cases op with
  | settle i =>
      by_cases hi : i ∈ s.inFlight
      · simp only [step, if_pos hi]
        intro p hp
        rcases List.mem_append.mp hp with hp | hp
        · exact h p hp
        · simp at hp
          subst hp
          rfl
      · simp only [step, if_neg hi]; exact h
  | execute =>
      simp only [step]
      split
      · exact h
      · split <;> exact h
  | advance d => exact h
  | dispatch =>
      simp only [step]
      split
      · split <;> exact h
      · exact h
  | clear => exact h
  | finishLoop =>
      simp only [step]
      split <;> exact h

theorem settled_spec_run (env : Nat → Outcome) (s : State) (ops : List Op)
    (h : ∀ p ∈ s.settled, p.2 = executeRequest (env p.1)) :
    ∀ p ∈ (run env s ops).settled, p.2 = executeRequest (env p.1) := by
  induction ops generalizing s with
  | nil => exact h
  | cons op rest ih =>
      rw [run, List.foldl_cons, ← run]
      exact ih _ (settled_spec_step env s op h)

end RateLimiter

end MarqetaMcp

namespace MarqetaMcp

/-! ## Request executor (src/dist/src/client/http-client.js)

`HttpClient.executeToolRequest` assembles the outbound request from a tool
definition and a parameter object, throwing before any network activity
when a required parameter is missing.  The assembled configuration is the
deferred work item handed to `rateLimiter.execute`, so a returned
`Except.error` means neither the rate limiter nor the HTTP transport was
ever invoked for that call. -/

/-- A declared parameter as read by `executeToolRequest`: its outbound
`name` and whether it is `required` (the schema field is not consulted by
the executor). -/
structure ParamDef where
  name : String
  required : Bool

/-- The declared request body: content type and body schema. -/
structure RequestBody where
  contentType : Option String
  schema : JsValue

/-- Parameter-location maps (key → declared parameter), each optional,
mirroring `tool.http.parameters.path` / `.query` / `.header`; insertion
order models `Object.entries` enumeration order. -/
structure HttpParams where
  path : Option (List (String × ParamDef))
  query : Option (List (String × ParamDef))
  header : Option (List (String × ParamDef))

/-- The `http` part of a tool definition. -/
structure ToolHttp where
  method : String
  path : String
  parameters : Option HttpParams
  requestBody : Option RequestBody

/-- A tool definition as loaded from the precompiled tool list. -/
structure Tool where
  name : String
  description : String
  service : String
  scope : String
  http : ToolHttp
  inputSchema : JsValue
  outputSchema : JsValue

/-- A caller's parameter object (absent key models JS `undefined`). -/
abbrev Params := List (String × JsValue)

/-- The assembled axios request configuration handed to the rate
limiter. -/
structure RequestConfig where
  method : String
  url : String
  params : Option (List (String × JsValue))
  data : Option JsValue
  headers : Option (List (String × String))

/-- Unreserved characters of JS `encodeURIComponent`:
letters, digits, and `- _ . ! ~ * ( )` together with the apostrophe
(codes 45, 95, 46, 33, 126, 42, 39, 40, 41). -/
def isUnreservedURIChar (c : Char) : Bool :=
  let n := c.toNat
  decide (65 ≤ n ∧ n ≤ 90) || decide (97 ≤ n ∧ n ≤ 122)
    || decide (48 ≤ n ∧ n ≤ 57) || (n == 45) || (n == 95) || (n == 46)
    || (n == 33) || (n == 126) || (n == 42) || (n == 39) || (n == 40) || (n == 41)

/-- UTF-8 byte sequence of a character. -/
def utf8Bytes (c : Char) : List Nat :=
  let n := c.toNat
  if n < 128 then [n]
  else if n < 2048 then [192 + n / 64, 128 + n % 64]
  else if n < 65536 then [224 + n / 4096, 128 + (n / 64) % 64, 128 + n % 64]
  else [240 + n / 262144, 128 + (n / 4096) % 64, 128 + (n / 64) % 64, 128 + n % 64]

/-- Uppercase hexadecimal digit. -/
def hexDigit (n : Nat) : Char :=
  if n < 10 then Char.ofNat (48 + n) else Char.ofNat (55 + n)

/-- Two-digit uppercase hex rendering of a byte. -/
def byteToHex (b : Nat) : String :=
  String.mk [hexDigit (b / 16), hexDigit (b % 16)]

/-- JS `encodeURIComponent`: unreserved characters pass through, all other
characters are percent-encoded byte-wise in UTF-8. -/
def encodeURIComponent (s : String) : String :=
  String.join (s.data.map (fun c =>
    if isUnreservedURIChar c then String.singleton c
    else String.join ((utf8Bytes c).map (fun b => "%" ++ byteToHex b))))

/-- Replace the first occurrence of `pat` in a character list (JS
`String.prototype.replace` with a string pattern replaces only the first
occurrence; an absent pattern leaves the string unchanged). -/
def replaceFirstAux (pat repl : List Char) : List Char → Option (List Char)
  | [] => if pat = [] then some repl else none
  | c :: rest =>
      if pat.isPrefixOf (c :: rest) then
        some (repl ++ (c :: rest).drop pat.length)
      else
        (replaceFirstAux pat repl rest).map (fun r => c :: r)

/-- String-level first-occurrence replacement. -/
def replaceFirst (s pat repl : String) : String :=
  match replaceFirstAux pat.data repl.data s.data with
  | some r => String.mk r
  | none => s

/-- Keys of an object value, as `Object.keys` (arrays give index strings;
JS string character indices are not modelled, no claim exercises them). -/
def jsKeys : JsValue → List String
  | .obj fields => fields.map Prod.fst
  | .arr xs => (List.range xs.length).map toString
  | _ => []

/-- Generic ordered-map update for string-keyed association lists
(overwrite in place, else append), as JS property assignment. -/
def setEntry {α : Type} (fields : List (String × α)) (key : String) (v : α) :
    List (String × α) :=
  match fields with
  | [] => [(key, v)]
  | (k, w) :: rest =>
      if k = key then (k, v) :: rest else (k, w) :: setEntry rest key v

/-- The error message thrown for a missing required parameter:
`Required <loc> parameter '<key>' is missing`. -/
def missingParamMsg (loc key : String) : String :=
  "Required " ++ loc ++ " parameter \x27" ++ key ++ "\x27 is missing"

/-- Declared path parameters of a tool (empty when absent, matching the
truthiness guard on `tool.http.parameters?.path`). -/
def pathDefs (t : Tool) : List (String × ParamDef) :=
  match t.http.parameters with
  | none => []
  | some ps => ps.path.getD []

/-- Declared query parameters of a tool. -/
def queryDefs (t : Tool) : List (String × ParamDef) :=
  match t.http.parameters with
  | none => []
  | some ps => ps.query.getD []

/-- Declared header parameters of a tool. -/
def headerDefs (t : Tool) : List (String × ParamDef) :=
  match t.http.parameters with
  | none => []
  | some ps => ps.header.getD []

/-- All declared parameter keys of every location, as deleted from the
untyped body fallback (http-client.js lines 314-324). -/
def allParamKeys (t : Tool) : List String :=
  (pathDefs t).map Prod.fst ++ (queryDefs t).map Prod.fst
    ++ (headerDefs t).map Prod.fst

/-- Path-substitution loop (http-client.js lines 270-280): a missing value
for a required parameter throws; a present value is percent-encoded and
substituted for the `\x7bkey\x7d` placeholder. -/
def substPathParams (params : Params) (url : String) :
    List (String × ParamDef) → Except String String
  | [] => .ok url
  | (key, pd) :: rest =>
      match lookupField params key with
      | none =>
          if pd.required then .error (missingParamMsg "path" key)
          else substPathParams params url rest
      | some v =>
          substPathParams params
            (replaceFirst url ("\x7b" ++ key ++ "\x7d")
              (encodeURIComponent (jsToString v)))
            rest

/-- Query-collection loop (lines 281-291): a missing required value
throws; present values are set in the query map unchanged. -/
def collectQueryParams (params : Params) (acc : List (String × JsValue)) :
    List (String × ParamDef) → Except String (List (String × JsValue))
  | [] => .ok acc
  | (key, pd) :: rest =>
      match lookupField params key with
      | none =>
          if pd.required then .error (missingParamMsg "query" key)
          else collectQueryParams params acc rest
      | some v => collectQueryParams params (setEntry acc key v) rest

/-- Header-collection loop (lines 292-302): a missing required value
throws; present values are coerced to their string form and set under the
declared parameter name. -/
def collectHeaderParams (params : Params) (acc : List (String × String)) :
    List (String × ParamDef) → Except String (List (String × String))
  | [] => .ok acc
  | (key, pd) :: rest =>
      match lookupField params key with
      | none =>
          if pd.required then .error (missingParamMsg "header" key)
          else collectHeaderParams params acc rest
      | some v => collectHeaderParams params (setEntry acc pd.name (jsToString v)) rest

/-- The test `bodySchema.type === 'object' && bodySchema.properties`
(line 306). -/
def isObjectWithProps (schema : JsValue) : Bool :=
  match jsGet schema "type" with
  | some (.str "object") => truthyOpt (jsGet schema "properties")
  | _ => false

/-- Body built from declared body-schema properties (lines 307-311): only
declared property names present in `params` are copied. -/
def bodyFromDeclaredProps (params : Params) (props : JsValue) : JsValue :=
  .obj ((jsKeys props).filterMap
    (fun k => (lookupField params k).map (fun v => (k, v))))

/-- Untyped-body fallback (lines 313-325): the full parameter object minus
every key declared as a path, query or header parameter. -/
def untypedBody (t : Tool) (params : Params) : JsValue :=
  .obj (params.filter (fun kv => decide (kv.1 ∉ allParamKeys t)))

/-- The outbound body for a declared request body (lines 303-326). -/
def requestBodyValue (t : Tool) (params : Params) (rb : RequestBody) : JsValue :=
  if isObjectWithProps rb.schema then
    match jsGet rb.schema "properties" with
    | some props => bodyFromDeclaredProps params props
    | none => .obj []
  else untypedBody t params

/-- `HttpClient.executeToolRequest` (http-client.js lines 265-355) up to
the hand-off to the rate limiter: substitutes path parameters, collects
query and header parameters, builds the request body and the final axios
configuration.  A thrown parameter error is the `Except.error` case and
occurs before `rateLimiter.execute` is ever reached; the `.ok`
configuration is the deferred work item submitted to the limiter. -/
def executeToolRequest (t : Tool) (params : Params) : Except String RequestConfig := do
  let url ← substPathParams params t.http.path (pathDefs t)
  let queryParams ← collectQueryParams params [] (queryDefs t)
  let headers0 ← collectHeaderParams params [] (headerDefs t)
  let bodyAndHeaders :=
    match t.http.requestBody with
    | none => (none, headers0)
    | some rb =>
        let headers1 :=
          match rb.contentType with
          | some ct => if ct ≠ "" then setEntry headers0 "Content-Type" ct else headers0
          | none => headers0
        (some (requestBodyValue t params rb), headers1)
  .ok { method := t.http.method, url := url,
        params := if 0 < queryParams.length then some queryParams else none,
        data := bodyAndHeaders.1,
        headers := if 0 < bodyAndHeaders.2.length then some bodyAndHeaders.2 else none }

/-- A parameter list contains a required parameter the caller omitted. -/
def requiredMissing (params : Params) (defs : List (String × ParamDef)) : Prop :=
  ∃ kd ∈ defs, kd.2.required = true ∧ lookupField params kd.1 = none

theorem except_bind_ok {α β : Type} (a : α) (f : α → Except String β) :
    (Except.ok a >>= f) = f a := rfl

theorem except_bind_error {α β : Type} (e : String) (f : α → Except String β) :
    ((Except.error e : Except String α) >>= f) = .error e := rfl

theorem substPathParams_error_of_missing (params : Params)
    (defs : List (String × ParamDef)) (h : requiredMissing params defs) (url : String) :
    ∃ key pd, (key, pd) ∈ defs ∧ pd.required = true ∧ lookupField params key = none
      ∧ substPathParams params url defs = .error (missingParamMsg "path" key) := by
  induction defs generalizing url with
  | nil => obtain ⟨kd, hm, _⟩ := h; cases hm
  | cons kd0 rest ih =>
      obtain ⟨key0, pd0⟩ := kd0
      cases hl : lookupField params key0 with
      | none =>
          by_cases hr : pd0.required = true
          · exact ⟨key0, pd0, List.mem_cons_self _ _, hr, hl,
              by simp [substPathParams, hl, hr]⟩
          · have hrest : requiredMissing params rest := by
              obtain ⟨kd, hm, hreq, hmiss⟩ := h
              rcases List.mem_cons.mp hm with hm | hm
              · rw [hm] at hreq; exact absurd hreq hr
              · exact ⟨kd, hm, hreq, hmiss⟩
            obtain ⟨key, pd, hm, hreq, hmiss, he⟩ := ih hrest url
            refine ⟨key, pd, List.mem_cons_of_mem _ hm, hreq, hmiss, ?_⟩
            simp [substPathParams, hl, hr, he]
      | some v =>
          have hrest : requiredMissing params rest := by
            obtain ⟨kd, hm, hreq, hmiss⟩ := h
            rcases List.mem_cons.mp hm with hm | hm
            · rw [hm] at hmiss; simp at hmiss; rw [hmiss] at hl; cases hl
            · exact ⟨kd, hm, hreq, hmiss⟩
          obtain ⟨key, pd, hm, hreq, hmiss, he⟩ := ih hrest
            (replaceFirst url ("\x7b" ++ key0 ++ "\x7d")
              (encodeURIComponent (jsToString v)))
          refine ⟨key, pd, List.mem_cons_of_mem _ hm, hreq, hmiss, ?_⟩
          simp [substPathParams, hl, he]

theorem substPathParams_ok_of_not_missing (params : Params)
    (defs : List (String × ParamDef)) (h : ¬ requiredMissing params defs) (url : String) :
    ∃ u, substPathParams params url defs = .ok u := by
  induction defs generalizing url with
  | nil => exact ⟨url, rfl⟩
  | cons kd0 rest ih =>
      obtain ⟨key0, pd0⟩ := kd0
      have hrest : ¬ requiredMissing params rest := by
        intro ⟨kd, hm, hreq, hmiss⟩
        exact h ⟨kd, List.mem_cons_of_mem _ hm, hreq, hmiss⟩
      cases hl : lookupField params key0 with
      | none =>
          by_cases hr : pd0.required = true
          · exact absurd ⟨(key0, pd0), List.mem_cons_self _ _, hr, hl⟩ h
          · obtain ⟨u, hu⟩ := ih hrest url
            exact ⟨u, by simp [substPathParams, hl, hr, hu]⟩
      | some v =>
          obtain ⟨u, hu⟩ := ih hrest
            (replaceFirst url ("\x7b" ++ key0 ++ "\x7d")
              (encodeURIComponent (jsToString v)))
          exact ⟨u, by simp [substPathParams, hl, hu]⟩

theorem collectQueryParams_error_of_missing (params : Params)
    (defs : List (String × ParamDef)) (h : requiredMissing params defs)
    (acc : List (String × JsValue)) :
    ∃ key pd, (key, pd) ∈ defs ∧ pd.required = true ∧ lookupField params key = none
      ∧ collectQueryParams params acc defs = .error (missingParamMsg "query" key) := by
  induction defs generalizing acc with
  | nil => obtain ⟨kd, hm, _⟩ := h; cases hm
  | cons kd0 rest ih =>
      obtain ⟨key0, pd0⟩ := kd0
      cases hl : lookupField params key0 with
      | none =>
          by_cases hr : pd0.required = true
          · exact ⟨key0, pd0, List.mem_cons_self _ _, hr, hl,
              by simp [collectQueryParams, hl, hr]⟩
          · have hrest : requiredMissing params rest := by
              obtain ⟨kd, hm, hreq, hmiss⟩ := h
              rcases List.mem_cons.mp hm with hm | hm
              · rw [hm] at hreq; exact absurd hreq hr
              · exact ⟨kd, hm, hreq, hmiss⟩
            obtain ⟨key, pd, hm, hreq, hmiss, he⟩ := ih hrest acc
            refine ⟨key, pd, List.mem_cons_of_mem _ hm, hreq, hmiss, ?_⟩
            simp [collectQueryParams, hl, hr, he]
      | some v =>
          have hrest : requiredMissing params rest := by
            obtain ⟨kd, hm, hreq, hmiss⟩ := h
            rcases List.mem_cons.mp hm with hm | hm
            · rw [hm] at hmiss; simp at hmiss; rw [hmiss] at hl; cases hl
            · exact ⟨kd, hm, hreq, hmiss⟩
          obtain ⟨key, pd, hm, hreq, hmiss, he⟩ := ih hrest (setEntry acc key0 v)
          refine ⟨key, pd, List.mem_cons_of_mem _ hm, hreq, hmiss, ?_⟩
          simp [collectQueryParams, hl, he]

theorem collectQueryParams_ok_of_not_missing (params : Params)
    (defs : List (String × ParamDef)) (h : ¬ requiredMissing params defs)
    (acc : List (String × JsValue)) :
    ∃ q, collectQueryParams params acc defs = .ok q := by
  induction defs generalizing acc with
  | nil => exact ⟨acc, rfl⟩
  | cons kd0 rest ih =>
      obtain ⟨key0, pd0⟩ := kd0
      have hrest : ¬ requiredMissing params rest := by
        intro ⟨kd, hm, hreq, hmiss⟩
        exact h ⟨kd, List.mem_cons_of_mem _ hm, hreq, hmiss⟩
      cases hl : lookupField params key0 with
      | none =>
          by_cases hr : pd0.required = true
          · exact absurd ⟨(key0, pd0), List.mem_cons_self _ _, hr, hl⟩ h
          · obtain ⟨q, hq⟩ := ih hrest acc
            exact ⟨q, by simp [collectQueryParams, hl, hr, hq]⟩
      | some v =>
          obtain ⟨q, hq⟩ := ih hrest (setEntry acc key0 v)
          exact ⟨q, by simp [collectQueryParams, hl, hq]⟩

theorem collectHeaderParams_error_of_missing (params : Params)
    (defs : List (String × ParamDef)) (h : requiredMissing params defs)
    (acc : List (String × String)) :
    ∃ key pd, (key, pd) ∈ defs ∧ pd.required = true ∧ lookupField params key = none
      ∧ collectHeaderParams params acc defs = .error (missingParamMsg "header" key) := by
  induction defs generalizing acc with
  | nil => obtain ⟨kd, hm, _⟩ := h; cases hm
  | cons kd0 rest ih =>
      obtain ⟨key0, pd0⟩ := kd0
      cases hl : lookupField params key0 with
      | none =>
          by_cases hr : pd0.required = true
          · exact ⟨key0, pd0, List.mem_cons_self _ _, hr, hl,
              by simp [collectHeaderParams, hl, hr]⟩
          · have hrest : requiredMissing params rest := by
              obtain ⟨kd, hm, hreq, hmiss⟩ := h
              rcases List.mem_cons.mp hm with hm | hm
              · rw [hm] at hreq; exact absurd hreq hr
              · exact ⟨kd, hm, hreq, hmiss⟩
            obtain ⟨key, pd, hm, hreq, hmiss, he⟩ := ih hrest acc
            refine ⟨key, pd, List.mem_cons_of_mem _ hm, hreq, hmiss, ?_⟩
            simp [collectHeaderParams, hl, hr, he]
      | some v =>
          have hrest : requiredMissing params rest := by
            obtain ⟨kd, hm, hreq, hmiss⟩ := h
            rcases List.mem_cons.mp hm with hm | hm
            · rw [hm] at hmiss; simp at hmiss; rw [hmiss] at hl; cases hl
            · exact ⟨kd, hm, hreq, hmiss⟩
          obtain ⟨key, pd, hm, hreq, hmiss, he⟩ := ih hrest
            (setEntry acc pd0.name (jsToString v))
          refine ⟨key, pd, List.mem_cons_of_mem _ hm, hreq, hmiss, ?_⟩
          simp [collectHeaderParams, hl, he]

theorem collectHeaderParams_ok_of_not_missing (params : Params)
    (defs : List (String × ParamDef)) (h : ¬ requiredMissing params defs)
    (acc : List (String × String)) :
    ∃ hs, collectHeaderParams params acc defs = .ok hs := by
  induction defs generalizing acc with
  | nil => exact ⟨acc, rfl⟩
  | cons kd0 rest ih =>
      obtain ⟨key0, pd0⟩ := kd0
      have hrest : ¬ requiredMissing params rest := by
        intro ⟨kd, hm, hreq, hmiss⟩
        exact h ⟨kd, List.mem_cons_of_mem _ hm, hreq, hmiss⟩
      cases hl : lookupField params key0 with
      | none =>
          by_cases hr : pd0.required = true
          · exact absurd ⟨(key0, pd0), List.mem_cons_self _ _, hr, hl⟩ h
          · obtain ⟨hs, hq⟩ := ih hrest acc
            exact ⟨hs, by simp [collectHeaderParams, hl, hr, hq]⟩
      | some v =>
          obtain ⟨hs, hq⟩ := ih hrest (setEntry acc pd0.name (jsToString v))
          exact ⟨hs, by simp [collectHeaderParams, hl, hq]⟩

theorem executeToolRequest_data (t : Tool) (params : Params) (cfg : RequestConfig)
    (hok : executeToolRequest t params = .ok cfg) :
    cfg.data = (match t.http.requestBody with
      | none => none
      | some rb => some (requestBodyValue t params rb)) := by
  unfold executeToolRequest at hok
  rcases h1 : substPathParams params t.http.path (pathDefs t) with e | u
  · rw [h1, except_bind_error] at hok; cases hok
  rw [h1, except_bind_ok] at hok
  rcases h2 : collectQueryParams params [] (queryDefs t) with e | q
  · rw [h2, except_bind_error] at hok; cases hok
  rw [h2, except_bind_ok] at hok
  rcases h3 : collectHeaderParams params [] (headerDefs t) with e | hs
  · rw [h3, except_bind_error] at hok; cases hok
  rw [h3, except_bind_ok] at hok
  cases hok
  cases hrb : t.http.requestBody with
  | none => simp [hrb]
  | some rb => simp [hrb]

theorem mem_bodyFromDeclaredProps (params : Params) (props : JsValue)
    (k : String) (v : JsValue) :
    ((k, v) ∈ (jsKeys props).filterMap
        (fun k => (lookupField params k).map (fun v => (k, v))))
      ↔ (k ∈ jsKeys props ∧ lookupField params k = some v) := by
  rw [List.mem_filterMap]
  constructor
  · rintro ⟨a, ha, hf⟩
    cases hl : lookupField params a with
    | none => rw [hl] at hf; cases hf
    | some w =>
        rw [hl] at hf
        simp at hf
        obtain ⟨rfl, rfl⟩ := hf
        exact ⟨ha, hl⟩
  · rintro ⟨hk, hl⟩
    exact ⟨k, hk, by rw [hl]; rfl⟩

/-- The spec's end-to-end body-partitioning scenario: a POST tool with a
path parameter, a query parameter and a body schema declaring `name` and
`email`. -/
def exampleBodyTool : Tool :=
  { name := "users_createUser", description := "", service := "users",
    scope := "write",
    http :=
      { method := "POST",
        path := "/users/\x7buserId\x7d",
        parameters := some
          { path := some [("userId", ⟨"userId", true⟩)],
            query := some [("version", ⟨"version", false⟩)],
            header := none },
        requestBody := some
          { contentType := some "application/json",
            schema := .obj
              [("type", .str "object"),
               ("properties", .obj
                 [("name", .obj [("type", .str "string")]),
                  ("email", .obj [("type", .str "string")])])] } },
    inputSchema := .obj [], outputSchema := .obj [] }

/-- The scenario's caller-supplied parameter object. -/
def exampleBodyParams : Params :=
  [("userId", .str "1"), ("version", .str "v2"),
   ("name", .str "A"), ("email", .str "a@b.com")]

/-! ## Validator compilation (src/dist/src/parser/schema-converter.js,
`SchemaConverter.jsonSchemaToZod`) and zod v3 parse semantics

`jsonSchemaToZod` compiles a JSON-schema value into a zod validator.  The
zod library is external to the repository; the deep `ZodType` below holds
exactly the combinators the source constructs, and `zodParse` gives them
zod v3's documented parse semantics (object parsing strips undeclared
keys, `.passthrough()` keeps them, unions try members in order, issues
are collected with paths).  Issue message texts model zod's wording; no
claim depends on the exact message strings. -/

/-- JS strict equality `===` restricted to primitives, as used by
`Array.prototype.includes`; objects and arrays compare by reference, which
two independently produced values never share, so they are modelled as
never equal. -/
def jsPrimEq : JsValue → JsValue → Bool
  | .null, .null => true
  | .bool a, .bool b => a == b
  | .num a, .num b => a == b
  | .str a, .str b => a == b
  | _, _ => false

/-- zod's `getParsedType` names. -/
def jsParsedType : JsValue → String
  | .null => "null"
  | .bool _ => "boolean"
  | .num _ => "number"
  | .str _ => "string"
  | .arr _ => "array"
  | .obj _ => "object"

/-- Hexadecimal digit test. -/
def isHexChar (c : Char) : Bool :=
  c.isDigit || decide (97 ≤ c.toNat ∧ c.toNat ≤ 102)
    || decide (65 ≤ c.toNat ∧ c.toNat ≤ 70)

/-- Model of zod's `.email()` check: one `@`, non-empty local part and a
domain containing a dot (a simplification of zod's email regex; no claim
depends on its exact boundary). -/
def isEmailStr (s : String) : Bool :=
  match s.splitOn "@" with
  | [l, d] => l ≠ "" && d ≠ "" && d.contains (Char.ofNat 46)
  | _ => false

/-- Model of zod's `.uuid()` check: 8-4-4-4-12 hexadecimal groups. -/
def isUuidStr (s : String) : Bool :=
  match s.splitOn "-" with
  | [a, b, c, d, e] =>
      a.length == 8 && b.length == 4 && c.length == 4 && d.length == 4
        && e.length == 12
        && (a ++ b ++ c ++ d ++ e).data.all isHexChar
  | _ => false

/-- Model of zod's `.date()` check: `YYYY-MM-DD` digit groups (range
checks simplified; no claim depends on them). -/
def isDateStr (s : String) : Bool :=
  match s.splitOn "-" with
  | [y, m, d] =>
      y.length == 4 && m.length == 2 && d.length == 2
        && (y ++ m ++ d).data.all Char.isDigit
  | _ => false

/-- Model of zod's `.datetime()` check: an ISO date, `T`, a `Z`-terminated
time of colon-separated digit groups (simplified; no claim depends on
it). -/
def isDatetimeStr (s : String) : Bool :=
  match s.splitOn "T" with
  | [d, t] =>
      isDateStr d &&
        (match (t.splitOn "Z") with
          | [core, ""] =>
              (match core.splitOn ":" with
                | [h, m, sec] =>
                    h.length == 2 && m.length == 2
                      && (h ++ m).data.all Char.isDigit
                      && (sec.splitOn ".").all (fun g => g ≠ "" && g.data.all Char.isDigit)
                | _ => false)
          | _ => false)
  | _ => false

/-- Base atoms of the regular-expression fragment modelled for
`new RegExp(pattern).test(s)`: literal characters and `.`. -/
inductive RBase where
  | lit (c : Char)
  | dot

/-- Quantifiers of the modelled regex fragment. -/
inductive RQuant where
  | one
  | star
  | plus
  | opt

/-- One regex token: a base atom with a quantifier. -/
structure RTok where
  base : RBase
  quant : RQuant

/-- Regex metacharacters outside the modelled fragment (groups, classes,
alternation, escapes, braces): codes of `( ) [ ] | \ \x7b \x7d`. -/
def regexUnsupported (c : Char) : Bool :=
  c.toNat ∈ [40, 41, 91, 93, 124, 92, 123, 125]

/-- Parse the modelled regex fragment into tokens; `none` for patterns
outside the fragment (no claim exercises such a pattern). -/
def parseRegexToks : List Char → Option (List RTok)
  | [] => some []
  | c :: rest =>
      if regexUnsupported c || c.toNat ∈ [42, 43, 63, 94, 36] then none
      else
        let b : RBase := if c.toNat == 46 then .dot else .lit c
        match rest with
        | q :: r2 =>
            if q.toNat == 42 then (parseRegexToks r2).map (⟨b, .star⟩ :: ·)
            else if q.toNat == 43 then (parseRegexToks r2).map (⟨b, .plus⟩ :: ·)
            else if q.toNat == 63 then (parseRegexToks r2).map (⟨b, .opt⟩ :: ·)
            else (parseRegexToks (q :: r2)).map (⟨b, .one⟩ :: ·)
        | [] => (parseRegexToks []).map (⟨b, .one⟩ :: ·)

/-- Does a base atom match one character. -/
def rbaseMatch : RBase → Char → Bool
  | .dot, _ => true
  | .lit c, d => c == d

/-- Suffixes of the input reachable by consuming characters that match a
base atom (used to expand `*`). -/
def starSuffixes (b : RBase) : List Char → List (List Char)
  | [] => [[]]
  | c :: cs => (c :: cs) :: (if rbaseMatch b c then starSuffixes b cs else [])

/-- Match a token list against a character list; `mustEnd` encodes a
trailing `$` anchor. -/
def matchToks (mustEnd : Bool) : List RTok → List Char → Bool
  | [], s => !mustEnd || s.isEmpty
  | t :: ts, s =>
      match t.quant with
      | .one =>
          match s with
          | [] => false
          | c :: cs => rbaseMatch t.base c && matchToks mustEnd ts cs
      | .opt =>
          matchToks mustEnd ts s
            || (match s with
                | [] => false
                | c :: cs => rbaseMatch t.base c && matchToks mustEnd ts cs)
      | .star => (starSuffixes t.base s).any (fun s2 => matchToks mustEnd ts s2)
      | .plus =>
          match s with
          | [] => false
          | c :: cs =>
              rbaseMatch t.base c
                && (starSuffixes t.base cs).any (fun s2 => matchToks mustEnd ts s2)

/-- Model of JS `new RegExp(pattern).test(s)` on the fragment of literal
characters, `.`, `* + ?` and `^ $` anchors; an unanchored pattern may
match at any position.  Patterns outside the fragment yield `false` (no
claim exercises one). -/
def regexTest (pat s : String) : Bool :=
  let cs := pat.data
  let anchS := cs.head? == some (Char.ofNat 94)
  let cs1 := if anchS then cs.drop 1 else cs
  let anchE := cs1.getLast? == some (Char.ofNat 36)
  let cs2 := if anchE then cs1.dropLast else cs1
  match parseRegexToks cs2 with
  | none => false
  | some toks =>
      if anchS then matchToks anchE toks s.data
      else (List.range (s.length + 1)).any (fun i => matchToks anchE toks (s.data.drop i))

/-- A string check attached by `jsonSchemaToZod` to `z.string()`; bound
values are kept as raw schema values (a non-numeric bound makes the JS
comparison with `NaN` false, adding no issue). -/
inductive StrCheck where
  | minL (v : JsValue)
  | maxL (v : JsValue)
  | regex (v : JsValue)
  | email
  | uuid
  | datetime
  | date

/-- The zod validators `jsonSchemaToZod` constructs:
`z.any()`, `z.never()`, `z.boolean()`, `z.string()` with checks,
`z.enum(values)`, `z.number()` (optionally `.int()`/`.min`/`.max`),
`z.array(item)` with bounds, `z.object(shape)` (the `Bool` marks
`.optional()`), `z.record(z.any())`,
`z.lazy(() => z.object({}).passthrough())`, `z.union`, and
`z.intersection`. -/
inductive ZodType where
  | zany
  | znever
  | zbool
  | zstringChecks (checks : List StrCheck)
  | zenum (values : List JsValue)
  | znumber (isInt : Bool) (lo hi : Option JsValue)
  | zarray (item : ZodType) (lo hi : Option JsValue)
  | zobject (shape : List (String × ZodType × Bool))
  | zrecord
  | zpassthrough
  | zunion (members : List ZodType)
  | zinter (a b : ZodType)

/-- One zod issue: a path into the value and a message. -/
structure ZIssue where
  path : List String
  message : String
  deriving DecidableEq

/-- Prefix a path segment onto every issue (descending into a key or
index). -/
def prefixIssues (seg : String) (issues : List ZIssue) : List ZIssue :=
  issues.map (fun i => { i with path := seg :: i.path })

namespace SchemaConverter

/-- The test `schema.required.includes(key)` (converter line 193), with
`includes` using strict equality.  A truthy non-array `required` would
make the JS call throw; it is treated here as containing nothing (outside
every claim). -/
def requiredContains (r : Option JsValue) (key : String) : Bool :=
  match r with
  | some (.arr xs) => xs.any (fun v => jsPrimEq v (.str key))
  | _ => false

/-- Index-string entries of an array, as `Object.entries` on a JS
array. -/
def arrEntriesFrom (i : Nat) : List JsValue → List (String × JsValue)
  | [] => []
  | x :: xs => (toString i, x) :: arrEntriesFrom (i + 1) xs

/-- `Object.entries(v)`: object fields in insertion order; arrays give
index/value pairs; other values give no entries (JS would enumerate
string character indices, which no claim exercises). -/
def jsEntries : JsValue → List (String × JsValue)
  | .obj fields => fields
  | .arr xs => arrEntriesFrom 0 xs
  | _ => []

theorem jszFields_arrEntriesFrom (xs : List JsValue) (i : Nat) :
    jszFields (arrEntriesFrom i xs) = jszList xs := by
  induction xs generalizing i with
  | nil => rfl
  | cons x rest ih => simp [arrEntriesFrom, jszFields, jszList, ih]

theorem jszFields_jsEntries_lt (v : JsValue) : jszFields (jsEntries v) < jsz v := by
  cases v with
  | obj fields => simp [jsEntries, jsz]
  | arr xs => simp [jsEntries, jsz, jszFields_arrEntriesFrom]
  | null => simp [jsEntries, jszFields, jsz]
  | bool b => simp [jsEntries, jszFields, jsz]
  | num q => simp [jsEntries, jszFields, jsz]
  | str s => simp [jsEntries, jszFields, jsz]

/-- The string-check chain built for `type: 'string'` (converter lines
132-156): truthy `minLength` / `maxLength` / `pattern` accumulate checks,
then a recognised `format` replaces the accumulated chain with the bare
format check (the source reassigns `stringSchema = z.string().email()`
etc., discarding the earlier checks). -/
def stringChecksOf (schema : JsValue) : List StrCheck :=
  let base :=
    (if truthyOpt (jsGet schema "minLength") then
      [StrCheck.minL ((jsGet schema "minLength").getD .null)] else [])
    ++ (if truthyOpt (jsGet schema "maxLength") then
      [StrCheck.maxL ((jsGet schema "maxLength").getD .null)] else [])
    ++ (if truthyOpt (jsGet schema "pattern") then
      [StrCheck.regex ((jsGet schema "pattern").getD .null)] else [])
  match jsGet schema "format" with
  | some (.str "email") => [StrCheck.email]
  | some (.str "uuid") => [StrCheck.uuid]
  | some (.str "date-time") => [StrCheck.datetime]
  | some (.str "date") => [StrCheck.date]
  | _ => base

mutual
/-- `SchemaConverter.jsonSchemaToZod` (converter lines 112-205): circular
placeholders become the lazy passthrough object, composite keywords are
dispatched first, a missing or falsy `type` gives `z.any()`, and each
recognised type builds its zod validator (`enum` overrides the string
chain, `object` without truthy `properties` is `z.record(z.any())`).
A thrown JS `TypeError` (composite keyword with a truthy non-array value)
is the `Except.error` case. -/
def jsonSchemaToZod (schema : JsValue) : Except String ZodType :=
  if truthyOpt (jsGet schema "_circular") then .ok .zpassthrough
  else if truthyOpt (jsGet schema "oneOf") then
    match h1 : jsGet schema "oneOf" with
    | some (.arr xs) => handleOneOf xs
    | _ => .error "TypeError: schema.oneOf.map is not a function"
  else if truthyOpt (jsGet schema "anyOf") then
    match h2 : jsGet schema "anyOf" with
    | some (.arr xs) => handleAnyOf xs
    | _ => .error "TypeError: schema.anyOf.map is not a function"
  else if truthyOpt (jsGet schema "allOf") then
    match h3 : jsGet schema "allOf" with
    | some (.arr xs) => handleAllOf xs
    | _ => .error "TypeError: schema.allOf.map is not a function"
  else if !truthy schema || !truthyOpt (jsGet schema "type") then .ok .zany
  else
    match h4 : jsGet schema "type" with
    | some (.str "string") =>
        if truthyOpt (jsGet schema "enum") then
          match jsGet schema "enum" with
          | some (.arr vals) => .ok (.zenum vals)
          | _ => .error "TypeError: z.enum expects an array"
        else .ok (.zstringChecks (stringChecksOf schema))
    | some (.str "number") =>
        .ok (.znumber false (jsGet schema "minimum") (jsGet schema "maximum"))
    | some (.str "integer") =>
        .ok (.znumber true (jsGet schema "minimum") (jsGet schema "maximum"))
    | some (.str "boolean") => .ok .zbool
    | some (.str "array") =>
        match h5 : jsGet schema "items" with
        | some items =>
            if truthy items then
              match jsonSchemaToZod items with
              | .ok z => .ok (.zarray z (jsGet schema "minItems") (jsGet schema "maxItems"))
              | .error e => .error e
            else .ok (.zarray .zany (jsGet schema "minItems") (jsGet schema "maxItems"))
        | none => .ok (.zarray .zany (jsGet schema "minItems") (jsGet schema "maxItems"))
    | some (.str "object") =>
        match h6 : jsGet schema "properties" with
        | some props =>
            if truthy props then
              match compileShape (jsGet schema "required") (jsEntries props) with
              | .ok shape => .ok (.zobject shape)
              | .error e => .error e
            else .ok .zrecord
        | none => .ok .zrecord
    | _ => .ok .zany
termination_by jsz schema
decreasing_by
  all_goals
    first
      | (have u := jsz_lt_of_jsGet h1; simp [jsz] at u; omega)
      | (have u := jsz_lt_of_jsGet h2; simp [jsz] at u; omega)
      | (have u := jsz_lt_of_jsGet h3; simp [jsz] at u; omega)
      | (have u := jsz_lt_of_jsGet h5; omega)
      | (have hp := jsz_lt_of_jsGet h6
         have he := jszFields_jsEntries_lt props
         omega)

/-- `handleOneOf` (lines 206-213): zero members reject everything, one
member is that member, two or more become a union tried in order. -/
def handleOneOf (xs : List JsValue) : Except String ZodType :=
  match xs with
  | [] => .ok .znever
  | [x] => jsonSchemaToZod x
  | x :: y :: rest =>
      match compileList (x :: y :: rest) with
      | .ok zs => .ok (.zunion zs)
      | .error e => .error e
termination_by jszList xs + 1
decreasing_by
  all_goals (try simp [jszList, jszFields])
  all_goals omega

/-- `handleAnyOf` (lines 214-221), identical to `handleOneOf` in the
source. -/
def handleAnyOf (xs : List JsValue) : Except String ZodType :=
  match xs with
  | [] => .ok .znever
  | [x] => jsonSchemaToZod x
  | x :: y :: rest =>
      match compileList (x :: y :: rest) with
      | .ok zs => .ok (.zunion zs)
      | .error e => .error e
termination_by jszList xs + 1
decreasing_by
  all_goals (try simp [jszList, jszFields])
  all_goals omega

/-- `handleAllOf` (lines 222-231): zero members accept anything, one
member is that member; for two or more the source builds
`z.intersection(zs[0], zs.slice(1).reduce(intersection, zs[0]))` — note
the reduce is seeded with `zs[0]` again, so the first member appears
twice. -/
def handleAllOf (xs : List JsValue) : Except String ZodType :=
  match xs with
  | [] => .ok .zany
  | [x] => jsonSchemaToZod x
  | x :: y :: rest =>
      match compileList (x :: y :: rest) with
      | .ok zs =>
          match zs with
          | [] => .ok .zany
          | z0 :: ztail =>
              .ok (.zinter z0 (ztail.foldl (fun acc curr => .zinter acc curr) z0))
      | .error e => .error e
termination_by jszList xs + 1
decreasing_by
  all_goals (try simp [jszList, jszFields])
  all_goals omega

/-- Compile each member of a composite keyword in order
(`schemas.map(s => this.jsonSchemaToZod(s))`). -/
def compileList : List JsValue → Except String (List ZodType)
  | [] => .ok []
  | x :: xs =>
      match jsonSchemaToZod x with
      | .ok z =>
          match compileList xs with
          | .ok zs => .ok (z :: zs)
          | .error e => .error e
      | .error e => .error e
termination_by xs => jszList xs
decreasing_by
  all_goals (try simp [jszList, jszFields])
  all_goals omega

/-- Compile the object shape (lines 190-197): each declared property
recurses into its own validator and is `.optional()` unless listed in
`required`. -/
def compileShape (required : Option JsValue) :
    List (String × JsValue) → Except String (List (String × ZodType × Bool))
  | [] => .ok []
  | (k, ps) :: rest =>
      match jsonSchemaToZod ps with
      | .ok z =>
          match compileShape required rest with
          | .ok shape => .ok ((k, z, !requiredContains required k) :: shape)
          | .error e => .error e
      | .error e => .error e
termination_by entries => jszFields entries
decreasing_by
  all_goals (try simp [jszList, jszFields])
  all_goals omega
end

end SchemaConverter

/-! ## zod v3 parse semantics for the compiled validators -/

/-- Issues produced by one string check on a string value.  A non-numeric
length bound behaves as the JS comparison with `NaN`: always false, so no
issue. -/
def strCheckIssues (s : String) : StrCheck → List ZIssue
  | .minL v =>
      match v with
      | .num m =>
          if (s.length : Rat) < m then
            [⟨[], "String must contain at least " ++ jsNumToString m ++ " character(s)"⟩]
          else []
      | _ => []
  | .maxL v =>
      match v with
      | .num m =>
          if m < (s.length : Rat) then
            [⟨[], "String must contain at most " ++ jsNumToString m ++ " character(s)"⟩]
          else []
      | _ => []
  | .regex v => if regexTest (jsToString v) s then [] else [⟨[], "Invalid"⟩]
  | .email => if isEmailStr s then [] else [⟨[], "Invalid email"⟩]
  | .uuid => if isUuidStr s then [] else [⟨[], "Invalid uuid"⟩]
  | .datetime => if isDatetimeStr s then [] else [⟨[], "Invalid datetime"⟩]
  | .date => if isDateStr s then [] else [⟨[], "Invalid date"⟩]

/-- All issues of a string-check chain (zod collects every issue). -/
def runStrChecks (checks : List StrCheck) (s : String) : List ZIssue :=
  (checks.map (strCheckIssues s)).join

/-- Issues of `z.number()` with optional `.int()`, `.min`, `.max`
(inclusive bounds; non-numeric bounds compare as `NaN` and never fire). -/
def numCheckIssues (isInt : Bool) (lo hi : Option JsValue) (q : Rat) : List ZIssue :=
  (if isInt && !(q.den == 1) then [⟨[], "Expected integer, received float"⟩] else [])
  ++ (match lo with
      | some (.num m) =>
          if q < m then
            [⟨[], "Number must be greater than or equal to " ++ jsNumToString m⟩]
          else []
      | _ => [])
  ++ (match hi with
      | some (.num m) =>
          if m < q then
            [⟨[], "Number must be less than or equal to " ++ jsNumToString m⟩]
          else []
      | _ => [])

/-- Issues of `z.array(...).min/.max` against the element count. -/
def arrSizeIssues (lo hi : Option JsValue) (n : Nat) : List ZIssue :=
  (match lo with
   | some (.num m) =>
       if (n : Rat) < m then
         [⟨[], "Array must contain at least " ++ jsNumToString m ++ " element(s)"⟩]
       else []
   | _ => [])
  ++ (match hi with
      | some (.num m) =>
          if m < (n : Rat) then
            [⟨[], "Array must contain at most " ++ jsNumToString m ++ " element(s)"⟩]
          else []
      | _ => [])

mutual
/-- zod's intersection `mergeValues`: equal primitives merge to
themselves, plain objects merge key-wise (shared keys recursively,
left-hand key order first, right-only keys appended), equal-length arrays
merge element-wise, anything else is invalid. -/
def mergeValues (a b : JsValue) : Option JsValue :=
  match a, b with
  | .obj fa, .obj fb =>
      match mergeObjFields fb fa with
      | some merged =>
          some (.obj (merged ++ fb.filter (fun kv => (lookupField fa kv.1).isNone)))
      | none => none
  | .arr xa, .arr xb =>
      if xa.length = xb.length then
        match mergeArrElems xa xb with
        | some xs => some (.arr xs)
        | none => none
      else none
  | a, b => if jsPrimEq a b then some a else none
termination_by jsz a
decreasing_by
  all_goals (try simp [jsz, jszList, jszFields])
  all_goals omega

/-- Merge the left object's fields against the right object. -/
def mergeObjFields (fb : List (String × JsValue)) :
    List (String × JsValue) → Option (List (String × JsValue))
  | [] => some []
  | (k, va) :: rest =>
      match lookupField fb k with
      | none =>
          match mergeObjFields fb rest with
          | some ms => some ((k, va) :: ms)
          | none => none
      | some vb =>
          match mergeValues va vb with
          | some m =>
              match mergeObjFields fb rest with
              | some ms => some ((k, m) :: ms)
              | none => none
          | none => none
termination_by fa => jszFields fa
decreasing_by
  all_goals (try simp [jsz, jszList, jszFields])
  all_goals omega

/-- Merge equal-length arrays element-wise. -/
def mergeArrElems : List JsValue → List JsValue → Option (List JsValue)
  | [], _ => some []
  | _ :: _, [] => none
  | x :: xs, y :: ys =>
      match mergeValues x y with
      | some m =>
          match mergeArrElems xs ys with
          | some ms => some (m :: ms)
          | none => none
      | none => none
termination_by xs ys => jszList xs
decreasing_by
  all_goals (try simp [jsz, jszList, jszFields])
  all_goals omega
end

mutual
/-- zod v3 `parse` for the validators `jsonSchemaToZod` constructs.
Success returns the parsed value: objects are rebuilt from their declared
shape only (zod's default strip mode), `.passthrough()` and
`z.record(z.any())` return the object unchanged, arrays are rebuilt
element-wise, unions return the first member's success, intersections
merge both results.  Failure returns the collected issue list. -/
def zodParse (zt : ZodType) (v : JsValue) : Except (List ZIssue) JsValue :=
  match zt with
  | .zany => .ok v
  | .znever => .error [⟨[], "Expected never, received " ++ jsParsedType v⟩]
  | .zbool =>
      match v with
      | .bool b => .ok (.bool b)
      | _ => .error [⟨[], "Expected boolean, received " ++ jsParsedType v⟩]
  | .zstringChecks checks =>
      match v with
      | .str s =>
          match runStrChecks checks s with
          | [] => .ok (.str s)
          | is => .error is
      | _ => .error [⟨[], "Expected string, received " ++ jsParsedType v⟩]
  | .zenum vals =>
      if vals.any (fun w => jsPrimEq w v) then .ok v
      else .error [⟨[], "Invalid enum value"⟩]
  | .znumber isInt lo hi =>
      match v with
      | .num q =>
          match numCheckIssues isInt lo hi q with
          | [] => .ok (.num q)
          | is => .error is
      | _ => .error [⟨[], "Expected number, received " ++ jsParsedType v⟩]
  | .zarray item lo hi =>
      match v with
      | .arr xs =>
          match arrSizeIssues lo hi xs.length ++ (zodParseArr item 0 xs).1 with
          | [] => .ok (.arr (zodParseArr item 0 xs).2)
          | is => .error is
      | _ => .error [⟨[], "Expected array, received " ++ jsParsedType v⟩]
  | .zobject shape =>
      match v with
      | .obj fields =>
          match (zodParseShape fields shape).1 with
          | [] => .ok (.obj (zodParseShape fields shape).2)
          | is => .error is
      | _ => .error [⟨[], "Expected object, received " ++ jsParsedType v⟩]
  | .zrecord =>
      match v with
      | .obj fields => .ok (.obj fields)
      | _ => .error [⟨[], "Expected object, received " ++ jsParsedType v⟩]
  | .zpassthrough =>
      match v with
      | .obj fields => .ok (.obj fields)
      | _ => .error [⟨[], "Expected object, received " ++ jsParsedType v⟩]
  | .zunion members => zodParseUnion v members
  | .zinter a b =>
      match zodParse a v, zodParse b v with
      | .ok ra, .ok rb =>
          match mergeValues ra rb with
          | some m => .ok m
          | none => .error [⟨[], "Intersection results could not be merged"⟩]
      | .error ea, .error eb => .error (ea ++ eb)
      | .error ea, .ok _ => .error ea
      | .ok _, .error eb => .error eb
termination_by (sizeOf zt, 0)
decreasing_by
  all_goals simp_wf
  all_goals
    first
      | (apply Prod.Lex.right
         simp_arith
         done)
      | (apply Prod.Lex.left
         simp_arith
         done)
      | (apply Prod.Lex.left
         cases lo <;> cases hi <;> simp_arith
         done)


/-- Parse each array element with the item validator, collecting indexed
issues and the parsed elements. -/
def zodParseArr (item : ZodType) (i : Nat) :
    List JsValue → (List ZIssue × List JsValue)
  | [] => ([], [])
  | x :: xs =>
      match zodParse item x, zodParseArr item (i + 1) xs with
      | .ok u, r => (r.1, u :: r.2)
      | .error es, r => (prefixIssues (toString i) es ++ r.1, r.2)
termination_by xs => (sizeOf item + 1, xs.length)
decreasing_by
  all_goals simp_wf
  all_goals
    first
      | (apply Prod.Lex.right
         simp_arith
         done)
      | (apply Prod.Lex.left
         simp_arith
         done)
      | (apply Prod.Lex.left
         cases lo <;> cases hi <;> simp_arith
         done)


/-- Parse an object against a shape: a declared key that is absent is
fine when optional and an issue `Required` otherwise; a present declared
key is parsed by its own validator; undeclared keys are ignored (and
stripped, since the output is rebuilt from the shape only). -/
def zodParseShape (fields : List (String × JsValue)) :
    List (String × ZodType × Bool) → (List ZIssue × List (String × JsValue))
  | [] => ([], [])
  | (k, zt, opt) :: rest =>
      match lookupField fields k with
      | none =>
          if opt then zodParseShape fields rest
          else (⟨[k], "Required"⟩ :: (zodParseShape fields rest).1,
                (zodParseShape fields rest).2)
      | some v =>
          match zodParse zt v, zodParseShape fields rest with
          | .ok u, r => (r.1, (k, u) :: r.2)
          | .error es, r => (prefixIssues k es ++ r.1, r.2)
termination_by shape => (sizeOf shape, 0)
decreasing_by
  all_goals simp_wf
  all_goals
    first
      | (apply Prod.Lex.right
         simp_arith
         done)
      | (apply Prod.Lex.left
         simp_arith
         done)
      | (apply Prod.Lex.left
         cases lo <;> cases hi <;> simp_arith
         done)


/-- Try union members in declaration order; the first success wins, and
when every member fails the union reports a single invalid-input issue. -/
def zodParseUnion (v : JsValue) : List ZodType → Except (List ZIssue) JsValue
  | [] => .error [⟨[], "Invalid input"⟩]
  | m :: ms =>
      match zodParse m v with
      | .ok u => .ok u
      | .error _ => zodParseUnion v ms
termination_by members => (sizeOf members, 0)
decreasing_by
  all_goals simp_wf
  all_goals
    first
      | (apply Prod.Lex.right
         simp_arith
         done)
      | (apply Prod.Lex.left
         simp_arith
         done)
      | (apply Prod.Lex.left
         cases lo <;> cases hi <;> simp_arith
         done)

end

/-! ## Tool dispatcher (src/dist/src/index.js, `createToolHandler`) -/

/-- Lowercase hexadecimal digit (for JSON string escapes). -/
def hexDigitLower (n : Nat) : Char :=
  if n < 10 then Char.ofNat (48 + n) else Char.ofNat (87 + n)

/-- JSON escape of one character, as `JSON.stringify` renders string
contents. -/
def jsonEscapeChar (c : Char) : String :=
  if c.toNat == 34 then "\\\""
  else if c.toNat == 92 then "\\\\"
  else if c.toNat == 10 then "\\n"
  else if c.toNat == 13 then "\\r"
  else if c.toNat == 9 then "\\t"
  else if c.toNat == 8 then "\\b"
  else if c.toNat == 12 then "\\f"
  else if c.toNat < 32 then
    "\\u00" ++ String.mk [hexDigitLower (c.toNat / 16), hexDigitLower (c.toNat % 16)]
  else String.singleton c

/-- A JSON-quoted string. -/
def jsonQuote (s : String) : String :=
  "\"" ++ String.join (s.data.map jsonEscapeChar) ++ "\""

mutual
/-- `JSON.stringify(value, null, 2)`: pretty-printed JSON with two-space
indentation, `pad` being the current indentation prefix. -/
def jsonStringifyAux (pad : String) : JsValue → String
  | .null => "null"
  | .bool b => if b then "true" else "false"
  | .num q => jsNumToString q
  | .str s => jsonQuote s
  | .arr xs =>
      if xs.isEmpty then "[]"
      else "[\n" ++ jsonItems (pad ++ "  ") xs ++ "\n" ++ pad ++ "]"
  | .obj fields =>
      if fields.isEmpty then "\x7b\x7d"
      else "\x7b\n" ++ jsonFields (pad ++ "  ") fields ++ "\n" ++ pad ++ "\x7d"

/-- Indented, comma-separated array items. -/
def jsonItems (pad : String) : List JsValue → String
  | [] => ""
  | [x] => pad ++ jsonStringifyAux pad x
  | x :: y :: rest =>
      pad ++ jsonStringifyAux pad x ++ ",\n" ++ jsonItems pad (y :: rest)

/-- Indented, comma-separated object members. -/
def jsonFields (pad : String) : List (String × JsValue) → String
  | [] => ""
  | [(k, v)] => pad ++ jsonQuote k ++ ": " ++ jsonStringifyAux pad v
  | (k, v) :: g :: rest =>
      pad ++ jsonQuote k ++ ": " ++ jsonStringifyAux pad v ++ ",\n"
        ++ jsonFields pad (g :: rest)
end

/-- `JSON.stringify(value, null, 2)` at top level. -/
def jsonStringify (v : JsValue) : String := jsonStringifyAux "" v

/-- The message the outer catch extracts:
`error instanceof Error ? error.message : String(error)`. -/
def jsRejectionMessage : JsRejection → String
  | .error e => e.message
  | .value v => jsToString v

/-- Format a ZodError as the handler does:
`error.errors.map(e => e.path.join(".") + ": " + e.message).join(", ")`. -/
def formatIssues (issues : List ZIssue) : String :=
  String.intercalate ", "
    (issues.map (fun i => String.intercalate "." i.path ++ ": " ++ i.message))

/-- The protocol reply of a tool handler: a single text content item
(`{ content: [{ type: 'text', text }] }`). -/
structure ToolResult where
  text : String
  deriving DecidableEq

namespace MarqetaMcpServer

/-- `MarqetaMcpServer.createToolHandler` (index.js lines 76-122): compile
the input validator, parse `params.arguments || {}`, short-circuit on a
ZodError with an `Input validation error:` text, otherwise call the
request executor, best-effort-validate the output (failure is non-fatal
and the raw response is kept), pretty-print the reply, and catch every
other error as an `Error:` text.  `exec` models the awaited
`httpClient.executeToolRequest` promise; the second component of the
result records the validated parameter object passed to the executor
(`none` means the executor was never invoked for this call). -/
def createToolHandler (t : Tool) (args : JsValue)
    (exec : JsValue → Except JsRejection JsValue) : ToolResult × Option JsValue :=
  match SchemaConverter.jsonSchemaToZod t.inputSchema with
  | .error msg => ({ text := "Error: " ++ msg }, none)
  | .ok inputValidator =>
      match zodParse inputValidator (if truthy args then args else .obj []) with
      | .error issues =>
          ({ text := "Input validation error: " ++ formatIssues issues }, none)
      | .ok validatedInput =>
          match exec validatedInput with
          | .error e => ({ text := "Error: " ++ jsRejectionMessage e }, some validatedInput)
          | .ok response =>
              match SchemaConverter.jsonSchemaToZod t.outputSchema with
              | .error msg => ({ text := "Error: " ++ msg }, some validatedInput)
              | .ok outputValidator =>
                  let validatedOutput :=
                    match zodParse outputValidator response with
                    | .ok u => u
                    | .error _ => response
                  ({ text := jsonStringify validatedOutput }, some validatedInput)

end MarqetaMcpServer

theorem zodParseUnion_error_shape (v : JsValue) :
    ∀ ms es, zodParseUnion v ms = .error es → es = [⟨[], "Invalid input"⟩] := by
  intro ms
  induction ms with
  | nil => intro es h; simp [zodParseUnion] at h; exact h.symm
  | cons m rest ih =>
      intro es h
      rw [zodParseUnion] at h
      cases hm : zodParse m v with
      | ok u => rw [hm] at h; cases h
      | error e2 => rw [hm] at h; exact ih es h

theorem zodParse_error_ne_nil_aux :
    ∀ (n : Nat) (zt : ZodType), sizeOf zt ≤ n →
      ∀ v es, zodParse zt v = .error es → es ≠ [] := by
  intro n
  induction n with
  | zero =>
      intro zt h
      cases zt <;> simp_arith at h
  | succ n ih =>
      intro zt hsz v es hp
      cases zt with
      | zany => simp [zodParse] at hp
      | znever =>
          simp [zodParse] at hp
          rw [← hp]
          simp
      | zbool =>
          cases v <;> simp [zodParse] at hp <;> (rw [← hp]; simp)
      | zstringChecks checks =>
          cases v <;> try (simp [zodParse] at hp; rw [← hp]; simp)
          case str s =>
            rw [zodParse] at hp
            cases hrs : runStrChecks checks s with
            | nil => rw [hrs] at hp; cases hp
            | cons a l =>
                rw [hrs] at hp
                cases hp
                simp
      | zenum vals =>
          rw [zodParse] at hp
          split at hp
          · cases hp
          · cases hp; simp
      | znumber isInt lo hi =>
          cases v <;> try (simp [zodParse] at hp; rw [← hp]; simp)
          case num q =>
            rw [zodParse] at hp
            cases hni : numCheckIssues isInt lo hi q with
            | nil => rw [hni] at hp; cases hp
            | cons a l =>
                rw [hni] at hp
                cases hp
                simp
      | zarray item lo hi =>
          cases v <;> try (simp [zodParse] at hp; rw [← hp]; simp)
          case arr xs =>
            rw [zodParse] at hp
            cases hcomb : arrSizeIssues lo hi xs.length ++ (zodParseArr item 0 xs).1 with
            | nil => rw [hcomb] at hp; cases hp
            | cons a l =>
                rw [hcomb] at hp
                cases hp
                simp
      | zobject shape =>
          cases v <;> try (simp [zodParse] at hp; rw [← hp]; simp)
          case obj fields =>
            rw [zodParse] at hp
            cases hsh : (zodParseShape fields shape).1 with
            | nil => rw [hsh] at hp; cases hp
            | cons a l =>
                rw [hsh] at hp
                cases hp
                simp
      | zrecord =>
          cases v <;> simp [zodParse] at hp <;> (rw [← hp]; simp)
      | zpassthrough =>
          cases v <;> simp [zodParse] at hp <;> (rw [← hp]; simp)
      | zunion members =>
          rw [zodParse] at hp
          rw [zodParseUnion_error_shape v members es hp]
          simp
      | zinter a b =>
          have hsa : sizeOf a ≤ n := by simp_arith at hsz; omega
          have hsb : sizeOf b ≤ n := by simp_arith at hsz; omega
          rw [zodParse] at hp
          cases ha : zodParse a v with
          | ok ra =>
              cases hb : zodParse b v with
              | ok rb =>
                  simp only [ha, hb] at hp
                  cases hm : mergeValues ra rb with
                  | some m => simp only [hm] at hp; cases hp
                  | none =>
                      simp only [hm] at hp
                      cases hp
                      simp
              | error eb =>
                  simp only [ha, hb] at hp
                  cases hp
                  exact ih b hsb v _ hb
          | error ea =>
              cases hb : zodParse b v with
              | ok rb =>
                  simp only [ha, hb] at hp
                  cases hp
                  exact ih a hsa v _ ha
              | error eb =>
                  simp only [ha, hb] at hp
                  cases hp
                  intro hcon
                  rcases List.append_eq_nil.mp hcon with ⟨hc1, hc2⟩
                  exact ih a hsa v _ ha hc1

theorem zodParse_error_ne_nil (zt : ZodType) (v : JsValue) (es : List ZIssue)
    (hp : zodParse zt v = .error es) : es ≠ [] :=
  zodParse_error_ne_nil_aux (sizeOf zt) zt (Nat.le_refl _) v es hp

theorem prefixIssues_eq_nil (seg : String) (issues : List ZIssue) :
    prefixIssues seg issues = [] ↔ issues = [] := by
  simp [prefixIssues]

theorem zodParseShape_fst_nil_iff (fields : List (String × JsValue)) :
    ∀ shape, (zodParseShape fields shape).1 = []
      ↔ ((∀ k zt opt, (k, zt, opt) ∈ shape → lookupField fields k = none → opt = true)
         ∧ (∀ k zt opt v, (k, zt, opt) ∈ shape → lookupField fields k = some v
            → (zodParse zt v).isOk = true)) := by
  intro shape
  induction shape with
  | nil =>
      simp [zodParseShape]
  | cons e rest ih =>
      obtain ⟨k, zt, opt⟩ := e
      cases hl : lookupField fields k with
      | none =>
          cases hopt : opt with
          | true =>
              have hred : (zodParseShape fields ((k, zt, true) :: rest)).1
                  = (zodParseShape fields rest).1 := by
                simp only [zodParseShape, hl, reduceIte]
                try rfl
              rw [hred, ih]
              constructor
              · rintro ⟨c1, c2⟩
                refine ⟨?_, ?_⟩
                · intro k2 zt2 opt2 hm hl2
                  rcases List.mem_cons.mp hm with hm | hm
                  · cases hm; rfl
                  · exact c1 k2 zt2 opt2 hm hl2
                · intro k2 zt2 opt2 v hm hl2
                  rcases List.mem_cons.mp hm with hm | hm
                  · cases hm
                    rw [hl] at hl2
                    cases hl2
                  · exact c2 k2 zt2 opt2 v hm hl2
              · rintro ⟨c1, c2⟩
                exact ⟨fun k2 zt2 opt2 hm hl2 => c1 k2 zt2 opt2 (List.mem_cons_of_mem _ hm) hl2,
                       fun k2 zt2 opt2 v hm hl2 => c2 k2 zt2 opt2 v (List.mem_cons_of_mem _ hm) hl2⟩
          | false =>
              have hred : (zodParseShape fields ((k, zt, false) :: rest)).1
                  = ⟨[k], "Required"⟩ :: (zodParseShape fields rest).1 := by
                simp only [zodParseShape, hl, reduceIte]
                try rfl
              rw [hred]
              constructor
              · intro h
                exact absurd h (List.cons_ne_nil _ _)
              · rintro ⟨c1, c2⟩
                have := c1 k zt false (List.mem_cons_self _ _) hl
                cases this
      | some v =>
          cases hp : zodParse zt v with
          | ok u =>
              have hred : (zodParseShape fields ((k, zt, opt) :: rest)).1
                  = (zodParseShape fields rest).1 := by
                simp only [zodParseShape, hl]
                rw [hp]
                try rfl
              rw [hred, ih]
              constructor
              · rintro ⟨c1, c2⟩
                refine ⟨?_, ?_⟩
                · intro k2 zt2 opt2 hm hl2
                  rcases List.mem_cons.mp hm with hm | hm
                  · cases hm
                    rw [hl] at hl2
                    cases hl2
                  · exact c1 k2 zt2 opt2 hm hl2
                · intro k2 zt2 opt2 v2 hm hl2
                  rcases List.mem_cons.mp hm with hm | hm
                  · cases hm
                    rw [hl] at hl2
                    cases hl2
                    rw [hp]
                    rfl
                  · exact c2 k2 zt2 opt2 v2 hm hl2
              · rintro ⟨c1, c2⟩
                exact ⟨fun k2 zt2 opt2 hm hl2 => c1 k2 zt2 opt2 (List.mem_cons_of_mem _ hm) hl2,
                       fun k2 zt2 opt2 v2 hm hl2 => c2 k2 zt2 opt2 v2 (List.mem_cons_of_mem _ hm) hl2⟩
          | error es =>
              have hred : (zodParseShape fields ((k, zt, opt) :: rest)).1
                  = prefixIssues k es ++ (zodParseShape fields rest).1 := by
                simp only [zodParseShape, hl]
                rw [hp]
                try rfl
              rw [hred]
              constructor
              · intro h
                rcases List.append_eq_nil.mp h with ⟨h1, _⟩
                exact absurd ((prefixIssues_eq_nil _ _).mp h1) (zodParse_error_ne_nil zt v es hp)
              · rintro ⟨c1, c2⟩
                have := c2 k zt opt v (List.mem_cons_self _ _) hl
                rw [hp] at this
                cases this

theorem zodParse_zobject_isOk (shape : List (String × ZodType × Bool))
    (fields : List (String × JsValue)) :
    (zodParse (.zobject shape) (.obj fields)).isOk = true
      ↔ (zodParseShape fields shape).1 = [] := by
  rw [zodParse]
  cases h : (zodParseShape fields shape).1 with
  | nil => simp [Except.isOk, Except.toBool]
  | cons a l => simp [Except.isOk, Except.toBool]

theorem zodParseShape_snd_keys (fields : List (String × JsValue)) :
    ∀ shape kv, kv ∈ (zodParseShape fields shape).2
      → kv.1 ∈ shape.map (fun e => e.1) := by
  intro shape
  induction shape with
  | nil => intro kv h; simp [zodParseShape] at h
  | cons e rest ih =>
      obtain ⟨k, zt, opt⟩ := e
      intro kv hkv
      cases hl : lookupField fields k with
      | none =>
          cases hopt : opt with
          | true =>
              have hred : (zodParseShape fields ((k, zt, true) :: rest)).2
                  = (zodParseShape fields rest).2 := by
                simp only [zodParseShape, hl, reduceIte]
                try rfl
              rw [hopt, hred] at hkv
              exact List.mem_cons_of_mem _ (ih kv hkv)
          | false =>
              have hred : (zodParseShape fields ((k, zt, false) :: rest)).2
                  = (zodParseShape fields rest).2 := by
                simp only [zodParseShape, hl, reduceIte]
                try rfl
              rw [hopt, hred] at hkv
              exact List.mem_cons_of_mem _ (ih kv hkv)
      | some v =>
          cases hp : zodParse zt v with
          | ok u =>
              have hred : (zodParseShape fields ((k, zt, opt) :: rest)).2
                  = (k, u) :: (zodParseShape fields rest).2 := by
                simp only [zodParseShape, hl]
                rw [hp]
                try rfl
              rw [hred] at hkv
              rcases List.mem_cons.mp hkv with h | h
              · rw [h]; simp
              · exact List.mem_cons_of_mem _ (ih kv h)
          | error es =>
              have hred : (zodParseShape fields ((k, zt, opt) :: rest)).2
                  = (zodParseShape fields rest).2 := by
                simp only [zodParseShape, hl]
                rw [hp]
                try rfl
              rw [hred] at hkv
              exact List.mem_cons_of_mem _ (ih kv hkv)

theorem zodParse_zobject_ok_keys (shape : List (String × ZodType × Bool))
    (v u : JsValue) (h : zodParse (.zobject shape) v = .ok u) :
    ∃ out, u = .obj out ∧ ∀ kv ∈ out, kv.1 ∈ shape.map (fun e => e.1) := by
  cases v with
  | obj fields =>
      rw [zodParse] at h
      cases hsh : (zodParseShape fields shape).1 with
      | nil =>
          rw [hsh] at h
          cases h
          exact ⟨_, rfl, fun kv hkv => zodParseShape_snd_keys fields shape kv hkv⟩
      | cons a l => rw [hsh] at h; cases h
  | null => simp [zodParse] at h
  | bool b => simp [zodParse] at h
  | num q => simp [zodParse] at h
  | str s => simp [zodParse] at h
  | arr xs => simp [zodParse] at h

namespace SchemaConverter

theorem compileShape_keys (required : Option JsValue) :
    ∀ entries shape, compileShape required entries = .ok shape
      → shape.map (fun e => e.1) = entries.map Prod.fst := by
  intro entries
  induction entries with
  | nil => intro shape h; rw [compileShape] at h; cases h; rfl
  | cons e rest ih =>
      obtain ⟨k, ps⟩ := e
      intro shape h
      rw [compileShape] at h
      cases hc : jsonSchemaToZod ps with
      | ok z =>
          rw [hc] at h
          cases hr : compileShape required rest with
          | ok sh =>
              rw [hr] at h
              cases h
              simp [ih sh hr]
          | error e2 => rw [hr] at h; cases h
      | error e2 => rw [hc] at h; cases h

theorem compileShape_mem_of (required : Option JsValue) :
    ∀ entries shape, compileShape required entries = .ok shape
      → ∀ k zt opt, (k, zt, opt) ∈ shape
        → ∃ sub, (k, sub) ∈ entries ∧ jsonSchemaToZod sub = .ok zt
            ∧ opt = !requiredContains required k := by
  intro entries
  induction entries with
  | nil =>
      intro shape h k zt opt hm
      rw [compileShape] at h
      cases h
      cases hm
  | cons e rest ih =>
      obtain ⟨k0, ps⟩ := e
      intro shape h k zt opt hm
      rw [compileShape] at h
      cases hc : jsonSchemaToZod ps with
      | ok z =>
          rw [hc] at h
          cases hr : compileShape required rest with
          | ok sh =>
              rw [hr] at h
              cases h
              rcases List.mem_cons.mp hm with hm | hm
              · cases hm
                exact ⟨ps, List.mem_cons_self _ _, hc, rfl⟩
              · obtain ⟨sub, hs1, hs2, hs3⟩ := ih sh hr k zt opt hm
                exact ⟨sub, List.mem_cons_of_mem _ hs1, hs2, hs3⟩
          | error e2 => rw [hr] at h; cases h
      | error e2 => rw [hc] at h; cases h

theorem compileShape_of_mem (required : Option JsValue) :
    ∀ entries shape, compileShape required entries = .ok shape
      → ∀ k sub, (k, sub) ∈ entries
        → ∃ zt, jsonSchemaToZod sub = .ok zt
            ∧ (k, zt, !requiredContains required k) ∈ shape := by
  intro entries
  induction entries with
  | nil =>
      intro shape h k sub hm
      cases hm
  | cons e rest ih =>
      obtain ⟨k0, ps⟩ := e
      intro shape h k sub hm
      rw [compileShape] at h
      cases hc : jsonSchemaToZod ps with
      | ok z =>
          rw [hc] at h
          cases hr : compileShape required rest with
          | ok sh =>
              rw [hr] at h
              cases h
              rcases List.mem_cons.mp hm with hm | hm
              · cases hm
                exact ⟨z, hc, List.mem_cons_self _ _⟩
              · obtain ⟨zt, hz1, hz2⟩ := ih sh hr k sub hm
                exact ⟨zt, hz1, List.mem_cons_of_mem _ hz2⟩
          | error e2 => rw [hr] at h; cases h
      | error e2 => rw [hc] at h; cases h

theorem jsonSchemaToZod_object (schema props : JsValue)
    (hnc : truthyOpt (jsGet schema "_circular") = false)
    (h1 : truthyOpt (jsGet schema "oneOf") = false)
    (h2 : truthyOpt (jsGet schema "anyOf") = false)
    (h3 : truthyOpt (jsGet schema "allOf") = false)
    (htr : truthy schema = true)
    (htype : jsGet schema "type" = some (.str "object"))
    (hprops : jsGet schema "properties" = some props)
    (hptr : truthy props = true) :
    jsonSchemaToZod schema
      = (match compileShape (jsGet schema "required") (jsEntries props) with
          | .ok shape => .ok (.zobject shape)
          | .error e => .error e) := by
  rw [jsonSchemaToZod]
  rw [hnc, h1, h2, h3, htr]
  have htt : truthyOpt (jsGet schema "type") = true := by
    rw [htype]
    rfl
  rw [htt]
  simp only [Bool.not_true, Bool.or_self, reduceIte]
  split
  · simp_all
  split
  · simp_all
  · simp_all
  · simp_all
  · simp_all
  · simp_all
  · split
    · next props2 heq2 =>
        rw [hprops] at heq2
        cases heq2
        rw [hptr]
        simp only [reduceIte]
    · next heq2 =>
        rw [hprops] at heq2
        cases heq2
  · simp_all

end SchemaConverter

theorem handler_passed (t : Tool) (args : JsValue)
    (exec : JsValue → Except JsRejection JsValue) (res : ToolResult)
    (passed : JsValue)
    (hrun : MarqetaMcpServer.createToolHandler t args exec = (res, some passed)) :
    ∃ validator, SchemaConverter.jsonSchemaToZod t.inputSchema = .ok validator
      ∧ zodParse validator (if truthy args then args else .obj []) = .ok passed := by
  unfold MarqetaMcpServer.createToolHandler at hrun
  cases hc : SchemaConverter.jsonSchemaToZod t.inputSchema with
  | error m => simp only [hc] at hrun; simp at hrun
  | ok validator =>
      simp only [hc] at hrun
      cases hparse : zodParse validator (if truthy args then args else .obj []) with
      | error is => simp only [hparse] at hrun; simp at hrun
      | ok vi =>
          simp only [hparse] at hrun
          refine ⟨validator, rfl, ?_⟩
          cases hex : exec vi with
          | error e =>
              simp only [hex] at hrun
              have hsnd := congrArg Prod.snd hrun
              simp at hsnd
              rw [hparse, hsnd]
          | ok response =>
              cases hoc : SchemaConverter.jsonSchemaToZod t.outputSchema with
              | error m2 =>
                  simp only [hex, hoc] at hrun
                  have hsnd := congrArg Prod.snd hrun
                  simp at hsnd
                  rw [hparse, hsnd]
              | ok ov =>
                  simp only [hex, hoc] at hrun
                  have hsnd := congrArg Prod.snd hrun
                  simp at hsnd
                  rw [hparse, hsnd]

/-- A canonical object schema whose `required` list names a key that is
not among the declared properties. -/
def ghostSchema : JsValue :=
  .obj [("type", .str "object"),
        ("properties", .obj [("a", .obj [("type", .str "string")])]),
        ("required", .arr [.str "ghost"])]

/-- A canonical object schema requiring its declared property `a`. -/
def requiredASchema : JsValue :=
  .obj [("type", .str "object"),
        ("properties", .obj [("a", .obj [("type", .str "string")])]),
        ("required", .arr [.str "a"])]

/-- The spec's `users_getUser` scenario tool: input schema requires a
string `id`. -/
def exampleGetTool : Tool :=
  { name := "users_getUser", description := "", service := "users",
    scope := "read",
    http :=
      { method := "GET",
        path := "/users/\x7bid\x7d",
        parameters := some
          { path := some [("id", ⟨"id", true⟩)],
            query := none,
            header := none },
        requestBody := none },
    inputSchema := .obj
      [("type", .str "object"),
       ("properties", .obj [("id", .obj [("type", .str "string")])]),
       ("required", .arr [.str "id"])],
    outputSchema := .obj [] }

/-! ## OpenAPI-to-JSON-schema conversion and reference resolution

`SchemaConverter.openApiToJsonSchema` / `SchemaConverter.resolveRef`
(converter lines 9-111).  The JS recursion is modelled with an explicit
fuel argument that every call decrements, so the definitions are total;
`fuel_sufficient` below shows a fuel computable from the inputs is enough,
which is the termination content of the source recursion (each fuel unit
corresponds to one JS call frame).  `refStack` is the `stack` parameter
(the `finally` delete is implicit in parameter passing), `refCache` is
threaded as an insertion-ordered association list. -/

mutual
/-- String atoms (candidate reference strings) occurring in a value. -/
def atoms : JsValue → List String
  | .str s => [s]
  | .arr xs => atomsList xs
  | .obj fields => atomsFields fields
  | .null => []
  | .bool _ => []
  | .num _ => []

/-- String atoms of a list of values. -/
def atomsList : List JsValue → List String
  | [] => []
  | x :: xs => atoms x ++ atomsList xs

/-- String atoms of an object's field values. -/
def atomsFields : List (String × JsValue) → List String
  | [] => []
  | (_, v) :: rest => atoms v ++ atomsFields rest
end

/-- The walk of `resolveRef` (lines 96-103): follow each path part with a
property read, failing on a missing or falsy intermediate
(`if (!current) throw`). -/
def walkPath : JsValue → List String → Option JsValue
  | cur, [] => some cur
  | cur, p :: rest =>
      match jsGet cur p with
      | some next => if truthy next then walkPath next rest else none
      | none => none

/-- Accumulator for splitting a character list at `/`. -/
def splitSlashAux : List Char → List Char → List String
  | [], acc => [String.mk acc.reverse]
  | c :: rest, acc =>
      if c = '/' then String.mk acc.reverse :: splitSlashAux rest []
      else splitSlashAux rest (c :: acc)

/-- JS `ref.split('/')` (a nonempty single-character separator). -/
def splitSlash (s : String) : List String := splitSlashAux s.data []

/-- The cycle-breaking placeholder of `resolveRef` (line 88):
`\x7b type: 'object', _circular: true, _ref: ref \x7d`. -/
def circularPlaceholder (ref : String) : JsValue :=
  .obj [("type", .str "object"), ("_circular", .bool true), ("_ref", .str ref)]

/-- Result of a fuel-indexed conversion step: a converted value plus the
updated reference cache, a thrown JS error, or fuel exhaustion (the
marker is a modelling artifact, not a source behaviour). -/
inductive RRes where
  | ok (v : JsValue) (cache : List (String × JsValue))
  | err (msg : String)
  | fuel

/-- Result of converting one group of schema fields. -/
inductive PartRes where
  | ok (fields : List (String × JsValue)) (cache : List (String × JsValue))
  | err (msg : String)
  | fuel

/-- Result of converting a list of member schemas. -/
inductive ListRes where
  | ok (vs : List JsValue) (cache : List (String × JsValue))
  | err (msg : String)
  | fuel

/-- The strict comparison `schema.type === s`. -/
def typeEq (o : Option JsValue) (s : String) : Bool :=
  match o with
  | some (.str t) => t == s
  | _ => false

/-- One copied field guarded by a truthiness test (`if (schema.k)`). -/
def fieldIfTruthy (schema : JsValue) (key : String) : List (String × JsValue) :=
  match jsGet schema key with
  | some v => if truthy v then [(key, v)] else []
  | none => []

/-- One copied field guarded by a presence test
(`if (schema.k !== undefined)`). -/
def fieldIfPresent (schema : JsValue) (key : String) : List (String × JsValue) :=
  match jsGet schema key with
  | some v => [(key, v)]
  | none => []

/-- The unconditionally-scanned scalar fields of `openApiToJsonSchema`
(lines 16-45), in source order: truthy-guarded `type`, `description`,
`format`, `enum`, `pattern`, then presence-guarded `minimum`, `maximum`,
`minLength`, `maxLength`, `default`. -/
def simpleFields (schema : JsValue) : List (String × JsValue) :=
  fieldIfTruthy schema "type" ++ fieldIfTruthy schema "description"
    ++ fieldIfTruthy schema "format" ++ fieldIfTruthy schema "enum"
    ++ fieldIfTruthy schema "pattern" ++ fieldIfPresent schema "minimum"
    ++ fieldIfPresent schema "maximum" ++ fieldIfPresent schema "minLength"
    ++ fieldIfPresent schema "maxLength" ++ fieldIfPresent schema "default"

namespace SchemaConverter

mutual
/-- `SchemaConverter.openApiToJsonSchema` (lines 9-83): falsy schemas
become `\x7b type: 'object' \x7d`, a `$ref` member dispatches to
`resolveRef` (a non-string `$ref` would make `ref.split` throw, and the
`in` operator itself throws on truthy primitives), anything else is built
field by field. -/
def openApiToJsonSchema (specDoc : JsValue) :
    Nat → List String → List (String × JsValue) → JsValue → RRes
  | 0, _, _, _ => .fuel
  | fuel+1, stack, cache, schema =>
      if truthy schema = false then .ok (.obj [("type", .str "object")]) cache
      else
        match schema with
        | .obj fields =>
            match lookupField fields "$ref" with
            | some (.str ref) => resolveRef specDoc fuel stack cache ref
            | some _ => .err "TypeError: ref.split is not a function"
            | none => buildJsonSchema specDoc fuel stack cache (.obj fields)
        | .arr xs => buildJsonSchema specDoc fuel stack cache (.arr xs)
        | _ => .err "TypeError: cannot use in operator to search for $ref"

/-- The field-by-field body of `openApiToJsonSchema` (lines 15-82):
scalar fields, then the object part, the array part, and the three
composite keywords, concatenated in source insertion order. -/
def buildJsonSchema (specDoc : JsValue) :
    Nat → List String → List (String × JsValue) → JsValue → RRes
  | 0, _, _, _ => .fuel
  | fuel+1, stack, cache, schema =>
      match objectPart specDoc fuel stack cache schema with
      | .fuel => .fuel
      | .err e => .err e
      | .ok objF cache1 =>
          match arrayPart specDoc fuel stack cache1 schema with
          | .fuel => .fuel
          | .err e => .err e
          | .ok arrF cache2 =>
              match compositePart specDoc fuel stack cache2 schema "oneOf" with
              | .fuel => .fuel
              | .err e => .err e
              | .ok oneF cache3 =>
                  match compositePart specDoc fuel stack cache3 schema "anyOf" with
                  | .fuel => .fuel
                  | .err e => .err e
                  | .ok anyF cache4 =>
                      match compositePart specDoc fuel stack cache4 schema "allOf" with
                      | .fuel => .fuel
                      | .err e => .err e
                      | .ok allF cache5 =>
                          .ok (.obj (simpleFields schema ++ objF ++ arrF
                                ++ oneF ++ anyF ++ allF)) cache5

/-- Lines 46-61: under `type === 'object'`, the converted `properties`
map, the copied `required` list, and `additionalProperties`. -/
def objectPart (specDoc : JsValue) :
    Nat → List String → List (String × JsValue) → JsValue → PartRes
  | 0, _, _, _ => .fuel
  | fuel+1, stack, cache, schema =>
      if typeEq (jsGet schema "type") "object" then
        match propertiesPart specDoc fuel stack cache schema with
        | .fuel => .fuel
        | .err e => .err e
        | .ok pf cache1 =>
            match additionalPart specDoc fuel stack cache1 schema with
            | .fuel => .fuel
            | .err e => .err e
            | .ok af cache2 =>
                .ok (pf ++ fieldIfTruthy schema "required" ++ af) cache2
      else .ok [] cache

/-- Lines 47-52: a truthy `properties` is rebuilt entry by entry through
recursive conversion. -/
def propertiesPart (specDoc : JsValue) :
    Nat → List String → List (String × JsValue) → JsValue → PartRes
  | 0, _, _, _ => .fuel
  | fuel+1, stack, cache, schema =>
      match jsGet schema "properties" with
      | some props =>
          if truthy props then
            match convProps specDoc fuel stack cache (jsEntries props) with
            | .fuel => .fuel
            | .err e => .err e
            | .ok outs cache1 => .ok [("properties", .obj outs)] cache1
          else .ok [] cache
      | none => .ok [] cache

/-- Lines 56-60: a present `additionalProperties` is kept as `true` when
strictly equal to `true` and recursively converted otherwise. -/
def additionalPart (specDoc : JsValue) :
    Nat → List String → List (String × JsValue) → JsValue → PartRes
  | 0, _, _, _ => .fuel
  | fuel+1, stack, cache, schema =>
      match jsGet schema "additionalProperties" with
      | some (.bool true) => .ok [("additionalProperties", .bool true)] cache
      | some ap =>
          match openApiToJsonSchema specDoc fuel stack cache ap with
          | .fuel => .fuel
          | .err e => .err e
          | .ok out cache1 => .ok [("additionalProperties", out)] cache1
      | none => .ok [] cache

/-- Lines 62-72: under `type === 'array'`, a truthy `items` is
recursively converted, then `minItems` / `maxItems` are copied when
present. -/
def arrayPart (specDoc : JsValue) :
    Nat → List String → List (String × JsValue) → JsValue → PartRes
  | 0, _, _, _ => .fuel
  | fuel+1, stack, cache, schema =>
      if typeEq (jsGet schema "type") "array" then
        match jsGet schema "items" with
        | some items =>
            if truthy items then
              match openApiToJsonSchema specDoc fuel stack cache items with
              | .fuel => .fuel
              | .err e => .err e
              | .ok out cache1 =>
                  .ok ([("items", out)] ++ fieldIfPresent schema "minItems"
                        ++ fieldIfPresent schema "maxItems") cache1
            else .ok (fieldIfPresent schema "minItems"
                  ++ fieldIfPresent schema "maxItems") cache
        | none => .ok (fieldIfPresent schema "minItems"
              ++ fieldIfPresent schema "maxItems") cache
      else .ok [] cache

/-- Lines 73-81: a truthy composite keyword (`oneOf` / `anyOf` / `allOf`)
maps conversion over its members; `.map` on a truthy non-array throws.
An array value is always truthy, so the source's truthiness test folds
into the array pattern. -/
def compositePart (specDoc : JsValue) :
    Nat → List String → List (String × JsValue) → JsValue → String → PartRes
  | 0, _, _, _, _ => .fuel
  | fuel+1, stack, cache, schema, key =>
      match jsGet schema key with
      | some (.arr xs) =>
          match convList specDoc fuel stack cache xs with
          | .fuel => .fuel
          | .err e => .err e
          | .ok outs cache1 => .ok [(key, .arr outs)] cache1
      | some w =>
          if truthy w then
            .err ("TypeError: schema." ++ key ++ ".map is not a function")
          else .ok [] cache
      | none => .ok [] cache

/-- `schemas.map(s => this.openApiToJsonSchema(s))`, threading the
cache. -/
def convList (specDoc : JsValue) :
    Nat → List String → List (String × JsValue) → List JsValue → ListRes
  | 0, _, _, _ => .fuel
  | fuel+1, stack, cache, xs =>
      match xs with
      | [] => .ok [] cache
      | x :: rest =>
          match openApiToJsonSchema specDoc fuel stack cache x with
          | .fuel => .fuel
          | .err e => .err e
          | .ok out cache1 =>
              match convList specDoc fuel stack cache1 rest with
              | .fuel => .fuel
              | .err e => .err e
              | .ok outs cache2 => .ok (out :: outs) cache2

/-- The `for (const [key, value] of Object.entries(schema.properties))`
loop (lines 49-51), threading the cache. -/
def convProps (specDoc : JsValue) :
    Nat → List String → List (String × JsValue) → List (String × JsValue) → PartRes
  | 0, _, _, _ => .fuel
  | fuel+1, stack, cache, entries =>
      match entries with
      | [] => .ok [] cache
      | (k, pv) :: rest =>
          match openApiToJsonSchema specDoc fuel stack cache pv with
          | .fuel => .fuel
          | .err e => .err e
          | .ok out cache1 =>
              match convProps specDoc fuel stack cache1 rest with
              | .fuel => .fuel
              | .err e => .err e
              | .ok outs cache2 => .ok ((k, out) :: outs) cache2

/-- `SchemaConverter.resolveRef` (lines 84-111): a reference already on
the resolution stack yields the circular placeholder; a cached reference
returns its cached conversion; otherwise the path after the leading part
is walked through the spec document (a missing or falsy step throws
`Cannot resolve reference`), the target is converted with the reference
pushed, and the result is cached. -/
def resolveRef (specDoc : JsValue) :
    Nat → List String → List (String × JsValue) → String → RRes
  | 0, _, _, _ => .fuel
  | fuel+1, stack, cache, ref =>
      if ref ∈ stack then .ok (circularPlaceholder ref) cache
      else
        match lookupField cache ref with
        | some cached => .ok cached cache
        | none =>
            match walkPath specDoc ((splitSlash ref).drop 1) with
            | none => .err ("Cannot resolve reference: " ++ ref)
            | some current =>
                match openApiToJsonSchema specDoc fuel (ref :: stack) cache current with
                | .fuel => .fuel
                | .err e => .err e
                | .ok out cache1 => .ok out (setField cache1 ref out)
end

end SchemaConverter

theorem atoms_sub_of_mem_list {x : JsValue} {xs : List JsValue} (h : x ∈ xs) :
    atoms x ⊆ atomsList xs := by
  induction xs with
  | nil => cases h
  | cons y ys ih =>
      rw [List.mem_cons] at h
      intro a ha
      simp only [atomsList, List.mem_append]
      rcases h with h | h
      · exact Or.inl (h ▸ ha)
      · exact Or.inr (ih h ha)

theorem atoms_sub_of_mem_fields {k : String} {v : JsValue}
    {fields : List (String × JsValue)} (h : (k, v) ∈ fields) :
    atoms v ⊆ atomsFields fields := by
  induction fields with
  | nil => cases h
  | cons f fs ih =>
      obtain ⟨k0, v0⟩ := f
      rw [List.mem_cons] at h
      intro a ha
      simp only [atomsFields, List.mem_append]
      rcases h with h | h
      · cases h
        exact Or.inl ha
      · exact Or.inr (ih h ha)

theorem atoms_sub_of_jsGet {v u : JsValue} {key : String}
    (h : jsGet v key = some u) : atoms u ⊆ atoms v := by
  cases v with
  | obj fields =>
      exact fun a ha => atoms_sub_of_mem_fields (lookupField_mem h) ha
  | arr xs =>
      simp only [jsGet, jsIndex] at h
      cases hk : key.toNat? with
      | none => rw [hk] at h; simp at h
      | some i =>
          rw [hk] at h
          have h' : xs.get? i = some u := h
          exact fun a ha => atoms_sub_of_mem_list (List.get?_mem h') ha
  | null => simp [jsGet, jsIndex] at h
  | bool b => simp [jsGet, jsIndex] at h
  | num q => simp [jsGet, jsIndex] at h
  | str s => simp [jsGet, jsIndex] at h

theorem str_mem_atomsFields_of_lookupField {fields : List (String × JsValue)}
    {key r : String} (h : lookupField fields key = some (.str r)) :
    r ∈ atomsFields fields :=
  atoms_sub_of_mem_fields (lookupField_mem h) (by simp [atoms])

theorem str_mem_atoms_of_jsGet {v : JsValue} {key r : String}
    (h : jsGet v key = some (.str r)) : r ∈ atoms v :=
  atoms_sub_of_jsGet h (by simp [atoms])

theorem atomsFields_arrEntriesFrom (xs : List JsValue) (i : Nat) :
    atomsFields (SchemaConverter.arrEntriesFrom i xs) = atomsList xs := by
  induction xs generalizing i with
  | nil => rfl
  | cons x rest ih => simp [SchemaConverter.arrEntriesFrom, atomsFields, atomsList, ih]

theorem atomsFields_jsEntries_sub (v : JsValue) :
    atomsFields (SchemaConverter.jsEntries v) ⊆ atoms v := by
  cases v with
  | obj fields => exact fun a ha => ha
  | arr xs =>
      rw [SchemaConverter.jsEntries, atomsFields_arrEntriesFrom]
      exact fun a ha => ha
  | null => simp [SchemaConverter.jsEntries, atomsFields]
  | bool b => simp [SchemaConverter.jsEntries, atomsFields]
  | num q => simp [SchemaConverter.jsEntries, atomsFields]
  | str s => simp [SchemaConverter.jsEntries, atomsFields]

theorem walkPath_sub : ∀ (parts : List String) (cur out : JsValue),
    walkPath cur parts = some out → jsz out ≤ jsz cur ∧ atoms out ⊆ atoms cur := by
  intro parts
  induction parts with
  | nil =>
      intro cur out h
      simp only [walkPath] at h
      cases h
      exact ⟨Nat.le_refl _, fun a ha => ha⟩
  | cons p rest ih =>
      intro cur out h
      simp only [walkPath] at h
      cases hg : jsGet cur p with
      | none => rw [hg] at h; cases h
      | some next =>
          simp only [hg] at h
          cases ht : truthy next with
          | false => rw [ht] at h; simp at h
          | true =>
              rw [ht] at h
              simp only [reduceIte] at h
              obtain ⟨h1, h2⟩ := ih next out h
              have h3 := jsz_lt_of_jsGet hg
              have h4 := atoms_sub_of_jsGet hg
              exact ⟨Nat.le_trans h1 (Nat.le_of_lt h3), fun a ha => h4 (h2 ha)⟩

theorem nodup_subset_length {l r : List String} (hnd : l.Nodup) (hsub : l ⊆ r) :
    l.length ≤ r.length := by
  classical
  calc l.length = l.toFinset.card := (List.toFinset_card_of_nodup hnd).symm
    _ ≤ r.toFinset.card := Finset.card_le_card (fun x hx => by
        rw [List.mem_toFinset] at hx ⊢
        exact hsub hx)
    _ ≤ r.length := r.toFinset_card_le

theorem sub_mul_step {B s K c : Nat} (hs : s + 1 ≤ B) (hc : c ≤ K) :
    (B - (s + 1)) * K + c ≤ (B - s) * K := by
  have h1 : B - s = (B - (s + 1)) + 1 := by omega
  rw [h1, Nat.succ_mul]
  omega

/-- Invariant of the resolution stack: no reference is being resolved
twice, and every in-progress reference is drawn from the reference pool
`R`. -/
def StackInv (R stack : List String) : Prop := stack.Nodup ∧ stack ⊆ R

/-- Fuel budget contributed by the references not yet on the stack. -/
def refMeasure (specDoc : JsValue) (R stack : List String) : Nat :=
  (R.length - stack.length) * (8 * jsz specDoc + 8)

namespace SchemaConverter

theorem fuel_sufficient (specDoc : JsValue) (R : List String)
    (hspec : atoms specDoc ⊆ R) :
    ∀ fuel : Nat,
    (∀ stack cache v, StackInv R stack → atoms v ⊆ R →
        refMeasure specDoc R stack + 8 * jsz v + 6 ≤ fuel →
        openApiToJsonSchema specDoc fuel stack cache v ≠ RRes.fuel)
    ∧ (∀ stack cache v, StackInv R stack → atoms v ⊆ R →
        refMeasure specDoc R stack + 8 * jsz v + 5 ≤ fuel →
        buildJsonSchema specDoc fuel stack cache v ≠ RRes.fuel)
    ∧ (∀ stack cache v, StackInv R stack → atoms v ⊆ R →
        refMeasure specDoc R stack + 8 * jsz v + 4 ≤ fuel →
        objectPart specDoc fuel stack cache v ≠ PartRes.fuel)
    ∧ (∀ stack cache v, StackInv R stack → atoms v ⊆ R →
        refMeasure specDoc R stack + 8 * jsz v + 3 ≤ fuel →
        propertiesPart specDoc fuel stack cache v ≠ PartRes.fuel)
    ∧ (∀ stack cache v, StackInv R stack → atoms v ⊆ R →
        refMeasure specDoc R stack + 8 * jsz v + 2 ≤ fuel →
        additionalPart specDoc fuel stack cache v ≠ PartRes.fuel)
    ∧ (∀ stack cache v, StackInv R stack → atoms v ⊆ R →
        refMeasure specDoc R stack + 8 * jsz v + 3 ≤ fuel →
        arrayPart specDoc fuel stack cache v ≠ PartRes.fuel)
    ∧ (∀ stack cache v key, StackInv R stack → atoms v ⊆ R →
        refMeasure specDoc R stack + 8 * jsz v + 2 ≤ fuel →
        compositePart specDoc fuel stack cache v key ≠ PartRes.fuel)
    ∧ (∀ stack cache xs, StackInv R stack → atomsList xs ⊆ R →
        refMeasure specDoc R stack + 8 * jszList xs + 7 ≤ fuel →
        convList specDoc fuel stack cache xs ≠ ListRes.fuel)
    ∧ (∀ stack cache entries, StackInv R stack → atomsFields entries ⊆ R →
        refMeasure specDoc R stack + 8 * jszFields entries + 7 ≤ fuel →
        convProps specDoc fuel stack cache entries ≠ PartRes.fuel)
    ∧ (∀ stack cache ref, StackInv R stack → ref ∈ R →
        refMeasure specDoc R stack + 1 ≤ fuel →
        resolveRef specDoc fuel stack cache ref ≠ RRes.fuel) := by
  intro fuel
  induction fuel with
  | zero =>
      refine ⟨?_, ?_, ?_, ?_, ?_, ?_, ?_, ?_, ?_, ?_⟩ <;>
        · intros
          exfalso
          omega
  | succ fuel ih =>
      obtain ⟨ihConv, ihBuild, ihObj, ihProps, ihAp, ihArr, ihComp, ihList,
        ihPEntries, ihRes⟩ := ih
      refine ⟨?_, ?_, ?_, ?_, ?_, ?_, ?_, ?_, ?_, ?_⟩
      · -- openApiToJsonSchema
        intro stack cache v hsi hav hm
        simp only [openApiToJsonSchema]
        split
        · simp
        · next hft =>
            split
            · next fields =>
                split
                · next ref heq =>
                    have hrefR : ref ∈ R := hav (str_mem_atomsFields_of_lookupField heq)
                    have hjp := jsz_pos (JsValue.obj fields)
                    exact ihRes stack cache ref hsi hrefR (by omega)
                · simp
                · next heq =>
                    exact ihBuild stack cache _ hsi hav (by omega)
            · next xs =>
                exact ihBuild stack cache _ hsi hav (by omega)
            · simp
      · -- buildJsonSchema
        intro stack cache v hsi hav hm
        simp only [buildJsonSchema]
        split
        · next heq => exact absurd heq (ihObj stack cache v hsi hav (by omega))
        · simp
        · next objF cache1 heq =>
            split
            · next heq2 => exact absurd heq2 (ihArr stack cache1 v hsi hav (by omega))
            · simp
            · next arrF cache2 heq2 =>
                split
                · next heq3 =>
                    exact absurd heq3 (ihComp stack cache2 v "oneOf" hsi hav (by omega))
                · simp
                · next oneF cache3 heq3 =>
                    split
                    · next heq4 =>
                        exact absurd heq4 (ihComp stack cache3 v "anyOf" hsi hav (by omega))
                    · simp
                    · next anyF cache4 heq4 =>
                        split
                        · next heq5 =>
                            exact absurd heq5 (ihComp stack cache4 v "allOf" hsi hav (by omega))
                        · simp
                        · simp
      · -- objectPart
        intro stack cache v hsi hav hm
        simp only [objectPart]
        split
        · split
          · next heq => exact absurd heq (ihProps stack cache v hsi hav (by omega))
          · simp
          · next pf cache1 heq =>
              split
              · next heq2 => exact absurd heq2 (ihAp stack cache1 v hsi hav (by omega))
              · simp
              · simp
        · simp
      · -- propertiesPart
        intro stack cache v hsi hav hm
        simp only [propertiesPart]
        split
        · next props heq =>
            split
            · have hsub : atomsFields (jsEntries props) ⊆ R :=
                fun a ha => hav (atoms_sub_of_jsGet heq (atomsFields_jsEntries_sub props ha))
              have hf1 := jszFields_jsEntries_lt props
              have hf2 := jsz_lt_of_jsGet heq
              split
              · next heq2 =>
                  exact absurd heq2 (ihPEntries stack cache (jsEntries props) hsi hsub (by omega))
              · simp
              · simp
            · simp
        · simp
      · -- additionalPart
        intro stack cache v hsi hav hm
        simp only [additionalPart]
        split
        · simp
        · next ap hcon heq =>
            have hsub : atoms ap ⊆ R := fun a ha => hav (atoms_sub_of_jsGet heq ha)
            have hlt := jsz_lt_of_jsGet heq
            split
            · next heq2 => exact absurd heq2 (ihConv stack cache ap hsi hsub (by omega))
            · simp
            · simp
        · simp
      · -- arrayPart
        intro stack cache v hsi hav hm
        simp only [arrayPart]
        split
        · split
          · next items heq =>
              split
              · have hsub : atoms items ⊆ R := fun a ha => hav (atoms_sub_of_jsGet heq ha)
                have hlt := jsz_lt_of_jsGet heq
                split
                · next heq2 =>
                    exact absurd heq2 (ihConv stack cache items hsi hsub (by omega))
                · simp
                · simp
              · simp
          · simp
        · simp
      · -- compositePart
        intro stack cache v key hsi hav hm
        simp only [compositePart]
        split
        · next xs heq =>
            have hsub : atomsList xs ⊆ R :=
              fun a ha => hav (atoms_sub_of_jsGet heq (show a ∈ atoms (.arr xs) from ha))
            have hlt := jsz_lt_of_jsGet heq
            have hsz : jsz (JsValue.arr xs) = 1 + jszList xs := rfl
            split
            · next heq2 =>
                exact absurd heq2 (ihList stack cache xs hsi hsub (by omega))
            · simp
            · simp
        · split <;> simp
        · simp
      · -- convList
        intro stack cache xs hsi hax hm
        simp only [convList]
        split
        · simp
        · next x rest =>
            have hsub1 : atoms x ⊆ R := fun a ha => hax (by
              simp only [atomsList, List.mem_append]
              exact Or.inl ha)
            have hsub2 : atomsList rest ⊆ R := fun a ha => hax (by
              simp only [atomsList, List.mem_append]
              exact Or.inr ha)
            have hsz : jszList (x :: rest) = 1 + jsz x + jszList rest := rfl
            split
            · next heq => exact absurd heq (ihConv stack cache x hsi hsub1 (by omega))
            · simp
            · next out cache1 heq =>
                split
                · next heq2 =>
                    exact absurd heq2 (ihList stack cache1 rest hsi hsub2 (by omega))
                · simp
                · simp
      · -- convProps
        intro stack cache entries hsi hax hm
        simp only [convProps]
        split
        · simp
        · next k pv rest =>
            have hsub1 : atoms pv ⊆ R := fun a ha => hax (by
              simp only [atomsFields, List.mem_append]
              exact Or.inl ha)
            have hsub2 : atomsFields rest ⊆ R := fun a ha => hax (by
              simp only [atomsFields, List.mem_append]
              exact Or.inr ha)
            have hsz : jszFields ((k, pv) :: rest) = 1 + jsz pv + jszFields rest := rfl
            split
            · next heq => exact absurd heq (ihConv stack cache pv hsi hsub1 (by omega))
            · simp
            · next out cache1 heq =>
                split
                · next heq2 =>
                    exact absurd heq2 (ihPEntries stack cache1 rest hsi hsub2 (by omega))
                · simp
                · simp
      · -- resolveRef
        intro stack cache ref hsi href hm
        simp only [resolveRef]
        split
        · simp
        · next hnotin =>
            split
            · simp
            · next heq =>
                split
                · simp
                · next current heqw =>
                    have hnd2 : (ref :: stack).Nodup :=
                      List.nodup_cons.mpr ⟨hnotin, hsi.1⟩
                    have hsub2 : (ref :: stack) ⊆ R := by
                      intro a ha
                      rcases List.mem_cons.mp ha with h | h
                      · exact h ▸ href
                      · exact hsi.2 h
                    have hwk := walkPath_sub _ specDoc current heqw
                    have hav2 : atoms current ⊆ R := fun a ha => hspec (hwk.2 ha)
                    have hstep : refMeasure specDoc R (ref :: stack)
                        + (8 * jsz current + 6) ≤ refMeasure specDoc R stack := by
                      have hlen : stack.length + 1 ≤ R.length := by
                        have := nodup_subset_length hnd2 hsub2
                        simpa using this
                      have hc : 8 * jsz current + 6 ≤ 8 * jsz specDoc + 8 := by
                        have := hwk.1
                        omega
                      simp only [refMeasure, List.length_cons]
                      exact sub_mul_step hlen hc
                    split
                    · next heq2 =>
                        exact absurd heq2 (ihConv (ref :: stack) cache current
                          ⟨hnd2, hsub2⟩ hav2 (by omega))
                    · simp
                    · simp

end SchemaConverter

end MarqetaMcp

namespace MarqetaMcp

/-! ## Claim theorems for the rate limiter -/

/-- C1: for every sequence of operations starting from a freshly
constructed enabled rate limiter, the pending queue length never exceeds
`maxQueueSize` and the number of concurrently running work items never
exceeds `maxConcurrent` — in particular, launching more simultaneous
`execute` calls than `maxConcurrent` never observes more than
`maxConcurrent` work items running at any instant. -/
theorem C1_rate_limiter_invariant (i mc mq : Int) (cfg : RateLimiter.Config)
    (hc : RateLimiter.construct true i mc mq = .ok cfg)
    (n0 : Nat) (env : Nat → Outcome) (ops : List RateLimiter.Op) :
    (RateLimiter.run env (RateLimiter.init cfg n0) ops).requestQueue.length ≤ cfg.maxQueueSize
    ∧ (RateLimiter.run env (RateLimiter.init cfg n0) ops).concurrentRequests ≤ cfg.maxConcurrent
    ∧ (RateLimiter.run env (RateLimiter.init cfg n0) ops).inFlight.length ≤ cfg.maxConcurrent := by
  have hinv := RateLimiter.inv_run env (RateLimiter.init cfg n0) ops (RateLimiter.inv_init cfg n0)
  have hcfg : (RateLimiter.run env (RateLimiter.init cfg n0) ops).cfg = cfg :=
    RateLimiter.run_cfg env _ ops
  refine ⟨?_, ?_, ?_⟩
  · have := hinv.queue_le; rwa [hcfg] at this
  · have := hinv.conc_le; rwa [hcfg] at this
  · have h3 := hinv.inflight_len
    have h2 := hinv.conc_le
    rw [hcfg] at h2
    omega

/-- Witness for C1 at a concrete configuration and a schedule that launches
three `execute` calls against `maxConcurrent = 2`. -/
theorem C1_rate_limiter_invariant_witness :
    (RateLimiter.run (fun _ => Outcome.fulfilled JsValue.null)
        (RateLimiter.init ⟨true, 500, 2, 10⟩ 1000)
        [.execute, .execute, .execute, .advance 500, .dispatch, .dispatch,
          .dispatch]).concurrentRequests ≤ 2 :=
  (C1_rate_limiter_invariant 500 2 10 ⟨true, 500, 2, 10⟩ rfl 1000
    (fun _ => Outcome.fulfilled JsValue.null)
    [.execute, .execute, .execute, .advance 500, .dispatch, .dispatch, .dispatch]).2.1

/-- C2 counterexample: the claim demands `retryAfter > 0` for every enabled
limiter with a full queue, but a limiter validly constructed with
`intervalMs = 0` (construction only requires a non-negative interval)
rejects with `retryAfter = 0`. -/
theorem C2_counterexample :
    RateLimiter.construct true 0 1 0 = .ok ⟨true, 0, 1, 0⟩
    ∧ (RateLimiter.init ⟨true, 0, 1, 0⟩ 7).requestQueue.length
        = (⟨true, 0, 1, 0⟩ : RateLimiter.Config).maxQueueSize
    ∧ (RateLimiter.step (fun _ => Outcome.fulfilled JsValue.null)
          (RateLimiter.init ⟨true, 0, 1, 0⟩ 7) .execute).rejectedFull
        = [(0, RateLimiter.createQueueFullError (RateLimiter.init ⟨true, 0, 1, 0⟩ 7))]
    ∧ (RateLimiter.createQueueFullError (RateLimiter.init ⟨true, 0, 1, 0⟩ 7)).retryAfter
        = some 0
    ∧ ∀ k, (RateLimiter.createQueueFullError (RateLimiter.init ⟨true, 0, 1, 0⟩ 7)).retryAfter
        = some k → ¬ 0 < k := by
  refine ⟨rfl, rfl, rfl, rfl, ?_⟩
  intro k hk
  cases hk
  decide

/-- C2 (amended): for every enabled rate limiter whose queue already holds
`maxQueueSize` pending requests, one further `execute` call rejects
immediately with a queue-full error exposing
`retryAfter = estimatedWaitTime ≥ intervalMs` (strictly positive whenever
`intervalMs > 0`, but `0` when `intervalMs = 0`), the current
`queueLength` and the configured `maxQueueSize`, and the rejected call's
work item is never invoked (it is never dispatched by any continuation). -/
theorem C2_queue_full_rejection (i mc mq : Int) (cfg : RateLimiter.Config)
    (hc : RateLimiter.construct true i mc mq = .ok cfg)
    (n0 : Nat) (env : Nat → Outcome) (ops : List RateLimiter.Op)
    (s : RateLimiter.State) (hs : s = RateLimiter.run env (RateLimiter.init cfg n0) ops)
    (hfull : s.requestQueue.length = cfg.maxQueueSize) :
    (RateLimiter.step env s .execute).rejectedFull
      = s.rejectedFull ++ [(s.nextId, RateLimiter.createQueueFullError s)]
    ∧ (RateLimiter.createQueueFullError s).retryAfter
        = some (RateLimiter.estimatedWaitTime s)
    ∧ cfg.intervalMs ≤ RateLimiter.estimatedWaitTime s
    ∧ (0 < cfg.intervalMs → ∀ k, (RateLimiter.createQueueFullError s).retryAfter = some k
        → 0 < k)
    ∧ (RateLimiter.createQueueFullError s).queueLength = some s.requestQueue.length
    ∧ (RateLimiter.createQueueFullError s).maxQueueSize = some cfg.maxQueueSize
    ∧ (RateLimiter.step env s .execute).requestQueue = s.requestQueue
    ∧ (RateLimiter.step env s .execute).admitted = s.admitted
    ∧ ∀ ops2, s.nextId ∉
        (RateLimiter.run env (RateLimiter.step env s .execute) ops2).dispatched.map Prod.fst := by
  have hinv : RateLimiter.Inv s := by
    rw [hs]
    exact RateLimiter.inv_run env _ ops (RateLimiter.inv_init cfg n0)
  have hcfg : s.cfg = cfg := by
    rw [hs]; exact RateLimiter.run_cfg env _ ops
  have he : ¬ s.cfg.enabled = false := by
    rw [hcfg, (RateLimiter.construct_fields hc).1]
    simp
  have hf : s.cfg.maxQueueSize ≤ s.requestQueue.length := by
    rw [hcfg, hfull]
  have hwt : cfg.intervalMs ≤ RateLimiter.estimatedWaitTime s := by
    rw [← hcfg]
    exact Nat.le_max_right _ _
  refine ⟨?_, rfl, hwt, ?_, rfl, ?_, ?_, ?_, ?_⟩
  · simp only [RateLimiter.step, if_neg he, if_pos hf]
  · intro hpos k hk
    cases hk
    omega
  · show some s.cfg.maxQueueSize = some cfg.maxQueueSize
    rw [hcfg]
  · simp only [RateLimiter.step, if_neg he, if_pos hf]
  · simp only [RateLimiter.step, if_neg he, if_pos hf]
  · intro ops2 hmem
    have hstep : RateLimiter.Inv (RateLimiter.step env s .execute) :=
      RateLimiter.inv_step env s .execute hinv
    have hr1 : s.nextId < (RateLimiter.step env s .execute).nextId := by
      simp only [RateLimiter.step, if_neg he, if_pos hf]
      exact Nat.lt_succ_self _
    have hr2 : s.nextId ∉ (RateLimiter.step env s .execute).admitted := by
      simp only [RateLimiter.step, if_neg he, if_pos hf]
      intro hm
      exact Nat.lt_irrefl _ (hinv.id_bound _ hm)
    have hnadm := RateLimiter.fresh_run env _ ops2 s.nextId hr1 hr2
    have hinv2 := RateLimiter.inv_run env _ ops2 hstep
    exact hnadm (RateLimiter.mem_dispatched_mem_admitted hinv2 hmem)

/-- Witness for C2 (amended): a limiter with `maxQueueSize = 1` whose queue
holds one pending request rejects the next call exposing the configured
maximum. -/
theorem C2_queue_full_rejection_witness :
    (RateLimiter.createQueueFullError
        (RateLimiter.run (fun _ => Outcome.fulfilled JsValue.null)
          (RateLimiter.init ⟨true, 500, 2, 1⟩ 1000) [.execute])).maxQueueSize
      = some 1 :=
  (C2_queue_full_rejection 500 2 1 ⟨true, 500, 2, 1⟩ rfl 1000
    (fun _ => Outcome.fulfilled JsValue.null) [.execute] _ rfl rfl).2.2.2.2.2.1

/-- C3: from a freshly constructed enabled rate limiter, requests are
dispatched from the queue head in strict FIFO arrival order (the dispatch
log followed by the residual queue is exactly the admission order, minus
cleared requests), and any two consecutive dispatch start times are at
least `intervalMs` apart. -/
theorem C3_fifo_and_interval (i mc mq : Int) (cfg : RateLimiter.Config)
    (hc : RateLimiter.construct true i mc mq = .ok cfg)
    (n0 : Nat) (env : Nat → Outcome) (ops : List RateLimiter.Op) :
    List.Chain' (fun a b => a + cfg.intervalMs ≤ b)
      ((RateLimiter.run env (RateLimiter.init cfg n0) ops).dispatched.map Prod.snd)
    ∧ (RateLimiter.run env (RateLimiter.init cfg n0) ops).dispatched.map Prod.fst
        ++ (RateLimiter.run env (RateLimiter.init cfg n0) ops).requestQueue.map
            RateLimiter.PendingReq.id
      = (RateLimiter.run env (RateLimiter.init cfg n0) ops).admitted.filter
          (fun j => decide (j ∉ (RateLimiter.run env (RateLimiter.init cfg n0) ops).cleared)) := by
  have hinv := RateLimiter.inv_run env (RateLimiter.init cfg n0) ops (RateLimiter.inv_init cfg n0)
  have hcfg : (RateLimiter.run env (RateLimiter.init cfg n0) ops).cfg = cfg :=
    RateLimiter.run_cfg env _ ops
  constructor
  · have := hinv.chain
    rwa [hcfg] at this
  · exact hinv.fifo

/-- Witness for C3 at a concrete schedule with two dispatches 500 ms
apart. -/
theorem C3_fifo_and_interval_witness :
    List.Chain' (fun a b => a + 500 ≤ b)
      ((RateLimiter.run (fun _ => Outcome.fulfilled JsValue.null)
          (RateLimiter.init ⟨true, 500, 2, 10⟩ 1000)
          [.execute, .execute, .advance 500, .dispatch, .advance 500,
            .dispatch]).dispatched.map Prod.snd) :=
  (C3_fifo_and_interval 500 2 10 ⟨true, 500, 2, 10⟩ rfl 1000
    (fun _ => Outcome.fulfilled JsValue.null)
    [.execute, .execute, .advance 500, .dispatch, .advance 500, .dispatch]).1

/-- C8 counterexample: a work item that rejects with the non-Error value
`"boom"` is delivered to the caller coerced into an Error object carrying
the string form, not as the original value — refuting the claim that a
non-Error rejection value is delivered as-is. -/
theorem C8_counterexample :
    (RateLimiter.run (fun _ => Outcome.rejected (.value (.str "boom")))
        (RateLimiter.init ⟨true, 0, 1, 5⟩ 0) [.execute, .dispatch, .settle 0]).settled
      = [(0, Outcome.rejected (.error { name := "Error", message := "boom" }))]
    ∧ Outcome.rejected (JsRejection.error { name := "Error", message := "boom" })
        ≠ Outcome.rejected (.value (.str "boom")) := by
  constructor
  · have h0 : (RateLimiter.run (fun _ => Outcome.rejected (.value (.str "boom")))
        (RateLimiter.init ⟨true, 0, 1, 5⟩ 0) [.execute, .dispatch, .settle 0]).settled
        = [(0, RateLimiter.executeRequest (Outcome.rejected (.value (.str "boom"))))] := rfl
    rw [h0]
    simp [RateLimiter.executeRequest, jsToString]
  · intro h
    simp at h

/-- C8 (amended): every outcome delivered to a caller of `execute` is the
work item's own outcome passed through `executeRequest`: fulfilments and
Error rejections are forwarded exactly, while a rejection with a non-Error
value is coerced into `new Error(String(value))` rather than preserved. -/
theorem C8_outcome_delivery (cfg : RateLimiter.Config) (n0 : Nat)
    (env : Nat → Outcome) (ops : List RateLimiter.Op)
    (p : Nat × Outcome)
    (hp : p ∈ (RateLimiter.run env (RateLimiter.init cfg n0) ops).settled) :
    p.2 = RateLimiter.executeRequest (env p.1)
    ∧ (∀ v, env p.1 = .fulfilled v → p.2 = .fulfilled v)
    ∧ (∀ e, env p.1 = .rejected (.error e) → p.2 = .rejected (.error e))
    ∧ (∀ v, env p.1 = .rejected (.value v) →
        p.2 = .rejected (.error { name := "Error", message := jsToString v })) := by
  have hspec := RateLimiter.settled_spec_run env (RateLimiter.init cfg n0) ops
    (by intro q hq; simp [RateLimiter.init] at hq) p hp
  refine ⟨hspec, ?_, ?_, ?_⟩
  · intro v hv; rw [hspec, hv]; rfl
  · intro e he; rw [hspec, he]; rfl
  · intro v hv; rw [hspec, hv]; rfl

/-- Witness for C8 (amended) at the concrete coercion trace. -/
theorem C8_outcome_delivery_witness :
    ((0 : Nat), Outcome.rejected
        (JsRejection.error { name := "Error", message := "boom" })).2
      = RateLimiter.executeRequest
          ((fun _ => Outcome.rejected (JsRejection.value (.str "boom"))) 0) :=
  (C8_outcome_delivery ⟨true, 0, 1, 5⟩ 0
    (fun _ => Outcome.rejected (.value (.str "boom")))
    [.execute, .dispatch, .settle 0]
    ((0 : Nat), Outcome.rejected
        (JsRejection.error { name := "Error", message := "boom" }))
    (by
      have h0 : (RateLimiter.run (fun _ => Outcome.rejected (.value (.str "boom")))
          (RateLimiter.init ⟨true, 0, 1, 5⟩ 0) [.execute, .dispatch, .settle 0]).settled
          = [(0, RateLimiter.executeRequest (Outcome.rejected (.value (.str "boom"))))] := rfl
      rw [h0]
      simp [RateLimiter.executeRequest, jsToString])).1

/-! ## Claim theorems for the request executor -/

/-- C4: for every tool definition and every parameter object omitting a
value for some declared required path, query or header parameter,
`executeToolRequest` fails before any network call — the thrown error is
raised before the assembled configuration is handed to the rate limiter,
so neither the limiter nor the HTTP transport is invoked — with an error
naming the missing parameter. -/
theorem C4_missing_required_param (t : Tool) (params : Params)
    (h : requiredMissing params (pathDefs t) ∨ requiredMissing params (queryDefs t)
          ∨ requiredMissing params (headerDefs t)) :
    ∃ loc key pd,
      ((loc = "path" ∧ (key, pd) ∈ pathDefs t)
        ∨ (loc = "query" ∧ (key, pd) ∈ queryDefs t)
        ∨ (loc = "header" ∧ (key, pd) ∈ headerDefs t))
      ∧ pd.required = true ∧ lookupField params key = none
      ∧ executeToolRequest t params = .error (missingParamMsg loc key) := by
  by_cases hp : requiredMissing params (pathDefs t)
  · obtain ⟨key, pd, hm, hreq, hmiss, he⟩ :=
      substPathParams_error_of_missing params _ hp t.http.path
    refine ⟨"path", key, pd, .inl ⟨rfl, hm⟩, hreq, hmiss, ?_⟩
    unfold executeToolRequest
    rw [he, except_bind_error]
  · obtain ⟨u, hu⟩ := substPathParams_ok_of_not_missing params _ hp t.http.path
    by_cases hq : requiredMissing params (queryDefs t)
    · obtain ⟨key, pd, hm, hreq, hmiss, he⟩ :=
        collectQueryParams_error_of_missing params _ hq []
      refine ⟨"query", key, pd, .inr (.inl ⟨rfl, hm⟩), hreq, hmiss, ?_⟩
      unfold executeToolRequest
      rw [hu, except_bind_ok, he, except_bind_error]
    · obtain ⟨q, hqq⟩ := collectQueryParams_ok_of_not_missing params _ hq []
      have hh : requiredMissing params (headerDefs t) := by
        rcases h with h | h | h
        · exact absurd h hp
        · exact absurd h hq
        · exact h
      obtain ⟨key, pd, hm, hreq, hmiss, he⟩ :=
        collectHeaderParams_error_of_missing params _ hh []
      refine ⟨"header", key, pd, .inr (.inr ⟨rfl, hm⟩), hreq, hmiss, ?_⟩
      unfold executeToolRequest
      rw [hu, except_bind_ok, hqq, except_bind_ok, he, except_bind_error]

/-- Witness for C4: invoking the example tool with an empty parameter
object fails naming its required `userId` path parameter. -/
theorem C4_missing_required_param_witness :
    ∃ loc key pd,
      ((loc = "path" ∧ (key, pd) ∈ pathDefs exampleBodyTool)
        ∨ (loc = "query" ∧ (key, pd) ∈ queryDefs exampleBodyTool)
        ∨ (loc = "header" ∧ (key, pd) ∈ headerDefs exampleBodyTool))
      ∧ pd.required = true ∧ lookupField [] key = none
      ∧ executeToolRequest exampleBodyTool [] = .error (missingParamMsg loc key) :=
  C4_missing_required_param exampleBodyTool []
    (Or.inl ⟨("userId", ⟨"userId", true⟩), by simp [pathDefs, exampleBodyTool], rfl, rfl⟩)

/-- C5: for every tool declaring a request body whose schema is an object
with declared properties, the outbound body contains exactly the declared
property names whose values are present in `params` and no other
caller-supplied field; when the body schema is not an object with declared
properties, the body is the full parameter object minus all keys declared
as path, query or header parameters. -/
theorem C5_body_partition (t : Tool) (params : Params) (rb : RequestBody)
    (hrb : t.http.requestBody = some rb) (cfg : RequestConfig)
    (hok : executeToolRequest t params = .ok cfg) :
    (∀ props, jsGet rb.schema "type" = some (.str "object")
      → jsGet rb.schema "properties" = some props → truthy props = true
      → ∃ l, cfg.data = some (.obj l)
          ∧ ∀ k v, ((k, v) ∈ l ↔ (k ∈ jsKeys props ∧ lookupField params k = some v)))
    ∧ (isObjectWithProps rb.schema = false
      → ∃ l, cfg.data = some (.obj l)
          ∧ ∀ k v, ((k, v) ∈ l ↔ ((k, v) ∈ params ∧ k ∉ allParamKeys t))) := by
  have hdata := executeToolRequest_data t params cfg hok
  rw [hrb] at hdata
  dsimp only at hdata
  constructor
  · intro props htype hprops htruthy
    have hio : isObjectWithProps rb.schema = true := by
      unfold isObjectWithProps
      rw [htype, hprops]
      exact htruthy
    rw [hdata]
    unfold requestBodyValue
    rw [if_pos hio, hprops]
    exact ⟨_, rfl, fun k v => mem_bodyFromDeclaredProps params props k v⟩
  · intro hio
    rw [hdata]
    unfold requestBodyValue
    rw [if_neg (by rw [hio]; exact Bool.false_ne_true)]
    refine ⟨_, rfl, fun k v => ?_⟩
    rw [List.mem_filter]
    simp

/-- Witness for C5: the spec's end-to-end scenario — a POST tool with body
schema properties `name`, `email` invoked with `userId`, `version`,
`name`, `email` produces a body holding exactly `name` and `email`. -/
theorem C5_body_partition_witness :
    ∃ (cfg : RequestConfig) (l : List (String × JsValue)),
      executeToolRequest exampleBodyTool exampleBodyParams = .ok cfg
      ∧ cfg.data = some (.obj l)
      ∧ ("name", JsValue.str "A") ∈ l
      ∧ ("email", JsValue.str "a@b.com") ∈ l
      ∧ (∀ v, ("userId", v) ∉ l)
      ∧ (∀ v, ("version", v) ∉ l) := by
  have hok : executeToolRequest exampleBodyTool exampleBodyParams = .ok
      { method := "POST", url := "/users/1",
        params := some [("version", .str "v2")],
        data := some (.obj [("name", .str "A"), ("email", .str "a@b.com")]),
        headers := some [("Content-Type", "application/json")] } := rfl
  obtain ⟨l, hdata, hiff⟩ := (C5_body_partition exampleBodyTool exampleBodyParams
      _ rfl _ hok).1
      (.obj [("name", .obj [("type", .str "string")]),
             ("email", .obj [("type", .str "string")])]) rfl rfl rfl
  refine ⟨_, l, hok, hdata, ?_, ?_, ?_, ?_⟩
  · exact (hiff _ _).mpr ⟨by simp [jsKeys], rfl⟩
  · exact (hiff _ _).mpr ⟨by simp [jsKeys], rfl⟩
  · intro v hv
    have := ((hiff _ _).mp hv).1
    simp [jsKeys] at this
  · intro v hv
    have := ((hiff _ _).mp hv).1
    simp [jsKeys] at this

/-- C6 (counterexample): the claim says the compiled validator accepts an
object only if *every* key of the `required` list is present.  But the
compiler attaches optionality per *declared* property
(`required.includes(key)`), so a required key that is not among the
declared `properties` is never checked: for `ghostSchema`
(properties `a`, required `ghost`) the compiled validator accepts the
empty object although the required key `ghost` is absent. -/
theorem C6_counterexample :
    ∃ validator,
      SchemaConverter.jsonSchemaToZod ghostSchema = .ok validator
      ∧ SchemaConverter.requiredContains (jsGet ghostSchema "required") "ghost" = true
      ∧ lookupField ([] : List (String × JsValue)) "ghost" = none
      ∧ (zodParse validator (.obj [])).isOk = true := by
  refine ⟨.zobject [("a", .zstringChecks [], true)], ?_, rfl, rfl, ?_⟩
  · simp [ghostSchema, SchemaConverter.jsonSchemaToZod, SchemaConverter.compileShape,
      SchemaConverter.stringChecksOf, SchemaConverter.requiredContains,
      SchemaConverter.jsEntries, jsGet, jsIndex, lookupField, truthy, truthyOpt, jsPrimEq]
  · simp [zodParse, zodParseShape, lookupField, Except.isOk, Except.toBool]

/-- C6 (amended): for every canonical object schema with declared
properties, the compiled validator accepts an input object iff every
*declared* property listed in `required` is present and every present
declared property satisfies its own compiled sub-validator; keys not
declared in `properties` (in the input or in `required`) never influence
the outcome. -/
theorem C6_object_validation (schema : JsValue)
    (fieldsProps : List (String × JsValue))
    (hnc : truthyOpt (jsGet schema "_circular") = false)
    (h1 : truthyOpt (jsGet schema "oneOf") = false)
    (h2 : truthyOpt (jsGet schema "anyOf") = false)
    (h3 : truthyOpt (jsGet schema "allOf") = false)
    (htr : truthy schema = true)
    (htype : jsGet schema "type" = some (.str "object"))
    (hprops : jsGet schema "properties" = some (.obj fieldsProps))
    (validator : ZodType)
    (hv : SchemaConverter.jsonSchemaToZod schema = .ok validator)
    (input : List (String × JsValue)) :
    (zodParse validator (.obj input)).isOk = true
      ↔ ((∀ k sub, (k, sub) ∈ fieldsProps
            → SchemaConverter.requiredContains (jsGet schema "required") k = true
            → lookupField input k ≠ none)
         ∧ (∀ k sub v, (k, sub) ∈ fieldsProps → lookupField input k = some v
            → ∃ zsub, SchemaConverter.jsonSchemaToZod sub = .ok zsub
                ∧ (zodParse zsub v).isOk = true)) := by
  have heq := SchemaConverter.jsonSchemaToZod_object schema (.obj fieldsProps)
      hnc h1 h2 h3 htr htype hprops rfl
  rw [heq] at hv
  have hentries : SchemaConverter.jsEntries (.obj fieldsProps) = fieldsProps := rfl
  rw [hentries] at hv
  cases hcs : SchemaConverter.compileShape (jsGet schema "required") fieldsProps with
  | error e => rw [hcs] at hv; cases hv
  | ok shape =>
      rw [hcs] at hv
      cases hv
      rw [zodParse_zobject_isOk, zodParseShape_fst_nil_iff]
      constructor
      · rintro ⟨c1, c2⟩
        refine ⟨?_, ?_⟩
        · intro k sub hm hreqc hlnone
          obtain ⟨zt, hz, hmem⟩ :=
            SchemaConverter.compileShape_of_mem _ _ _ hcs k sub hm
          have hopt := c1 k zt _ hmem hlnone
          rw [hreqc] at hopt
          simp at hopt
        · intro k sub v hm hl
          obtain ⟨zt, hz, hmem⟩ :=
            SchemaConverter.compileShape_of_mem _ _ _ hcs k sub hm
          exact ⟨zt, hz, c2 k zt _ v hmem hl⟩
      · rintro ⟨c1, c2⟩
        refine ⟨?_, ?_⟩
        · intro k zt opt hmem hl
          obtain ⟨sub, hs1, hs2, hs3⟩ :=
            SchemaConverter.compileShape_mem_of _ _ _ hcs k zt opt hmem
          by_cases hrc : SchemaConverter.requiredContains (jsGet schema "required") k = true
          · exact absurd hl (c1 k sub hs1 hrc)
          · rw [hs3]
            simp only [Bool.not_eq_true] at hrc
            rw [hrc]
            rfl
        · intro k zt opt v hmem hl
          obtain ⟨sub, hs1, hs2, hs3⟩ :=
            SchemaConverter.compileShape_mem_of _ _ _ hcs k zt opt hmem
          obtain ⟨zsub, hz1, hz2⟩ := c2 k sub v hs1 hl
          rw [hz1] at hs2
          cases hs2
          exact hz2

/-- C6 witness: `requiredASchema` (property `a` required) accepts an input
carrying `a` plus an undeclared extra key. -/
theorem C6_object_validation_witness :
    (zodParse (.zobject [("a", .zstringChecks [], false)])
      (.obj [("a", .str "x"), ("extra", .num 5)])).isOk = true := by
  refine (C6_object_validation requiredASchema
      [("a", .obj [("type", .str "string")])]
      rfl rfl rfl rfl rfl rfl rfl
      (.zobject [("a", .zstringChecks [], false)]) ?_
      [("a", .str "x"), ("extra", .num 5)]).mpr ⟨?_, ?_⟩
  · simp [requiredASchema, SchemaConverter.jsonSchemaToZod, SchemaConverter.compileShape,
      SchemaConverter.stringChecksOf, SchemaConverter.requiredContains,
      SchemaConverter.jsEntries, jsGet, jsIndex, lookupField, truthy, truthyOpt, jsPrimEq]
  · intro k sub hm hrc
    simp only [List.mem_singleton, Prod.mk.injEq] at hm
    rw [hm.1]
    simp [lookupField]
  · intro k sub v hm hl
    simp only [List.mem_singleton, Prod.mk.injEq] at hm
    rw [hm.1] at hl
    simp only [lookupField] at hl
    refine ⟨.zstringChecks [], ?_, ?_⟩
    · rw [hm.2]
      simp [SchemaConverter.jsonSchemaToZod, SchemaConverter.stringChecksOf,
        jsGet, jsIndex, lookupField, truthy, truthyOpt]
    · simp only [reduceIte] at hl
      cases hl
      simp [zodParse, runStrChecks, Except.isOk, Except.toBool]

/-- C7: whenever the compiled input validator rejects the (defaulted)
arguments, the handler resolves with a text beginning
`Input validation error: ` followed by the joined per-field messages, and
the request executor is never invoked (second component `none`) — for
every executor `exec`. -/
theorem C7_validation_short_circuit (t : Tool) (args : JsValue)
    (exec : JsValue → Except JsRejection JsValue)
    (validator : ZodType) (issues : List ZIssue)
    (hv : SchemaConverter.jsonSchemaToZod t.inputSchema = .ok validator)
    (hfail : zodParse validator (if truthy args then args else .obj []) = .error issues) :
    MarqetaMcpServer.createToolHandler t args exec
      = ({ text := "Input validation error: " ++ formatIssues issues }, none) := by
  simp only [MarqetaMcpServer.createToolHandler, hv, hfail]

/-- C7 witness: the spec scenario — `users_getUser` requires a string
`id`; invoking with `\x7b\x7d` yields the formatted validation message
naming `id`, and the executor is not called. -/
theorem C7_validation_short_circuit_witness :
    MarqetaMcpServer.createToolHandler exampleGetTool (.obj [])
        (fun v => .ok v)
      = ({ text := "Input validation error: id: Required" }, none) := by
  have h := C7_validation_short_circuit exampleGetTool (.obj [])
      (fun v => .ok v)
      (.zobject [("id", .zstringChecks [], false)]) [⟨["id"], "Required"⟩]
      (by simp [exampleGetTool, SchemaConverter.jsonSchemaToZod,
            SchemaConverter.compileShape, SchemaConverter.stringChecksOf,
            SchemaConverter.requiredContains, SchemaConverter.jsEntries,
            jsGet, jsIndex, lookupField, truthy, truthyOpt, jsPrimEq])
      (by simp [zodParse, zodParseShape, lookupField, truthy, prefixIssues])
  rw [h]
  rfl

/-- C10: for every tool whose input schema is a canonical object schema
with declared properties, any parameter object the handler actually hands
to the request executor is an object whose keys all come from the declared
`properties` — undeclared caller-supplied keys are stripped by the
validator before the executor runs. -/
theorem C10_strip_undeclared (t : Tool)
    (fieldsProps : List (String × JsValue))
    (hnc : truthyOpt (jsGet t.inputSchema "_circular") = false)
    (h1 : truthyOpt (jsGet t.inputSchema "oneOf") = false)
    (h2 : truthyOpt (jsGet t.inputSchema "anyOf") = false)
    (h3 : truthyOpt (jsGet t.inputSchema "allOf") = false)
    (htr : truthy t.inputSchema = true)
    (htype : jsGet t.inputSchema "type" = some (.str "object"))
    (hprops : jsGet t.inputSchema "properties" = some (.obj fieldsProps))
    (args : JsValue) (exec : JsValue → Except JsRejection JsValue)
    (res : ToolResult) (passed : JsValue)
    (hrun : MarqetaMcpServer.createToolHandler t args exec = (res, some passed)) :
    ∃ out, passed = .obj out
      ∧ ∀ kv ∈ out, kv.1 ∈ fieldsProps.map Prod.fst := by
  obtain ⟨validator, hv, hp⟩ := handler_passed t args exec res passed hrun
  have heq := SchemaConverter.jsonSchemaToZod_object t.inputSchema (.obj fieldsProps)
      hnc h1 h2 h3 htr htype hprops rfl
  rw [heq] at hv
  have hentries : SchemaConverter.jsEntries (.obj fieldsProps) = fieldsProps := rfl
  rw [hentries] at hv
  cases hcs : SchemaConverter.compileShape (jsGet t.inputSchema "required") fieldsProps with
  | error e => rw [hcs] at hv; cases hv
  | ok shape =>
      rw [hcs] at hv
      cases hv
      obtain ⟨out, ho1, ho2⟩ := zodParse_zobject_ok_keys shape _ passed hp
      refine ⟨out, ho1, ?_⟩
      intro kv hkv
      have hk := ho2 kv hkv
      have hkeys := SchemaConverter.compileShape_keys
          (jsGet t.inputSchema "required") fieldsProps shape hcs
      rw [hkeys] at hk
      exact hk

/-- A spec document whose `Pet` component refers to itself — the
canonical `$ref` cycle. -/
def petSpec : JsValue :=
  .obj [("components", .obj [("schemas", .obj [("Pet",
    .obj [("$ref", .str "#/components/schemas/Pet")])])])]

/-- C9: reference resolution terminates for every spec document — a
computable fuel bound suffices for both conversion entry points, so the
source recursion has finite depth even on cyclic references; a reference
already on the resolution stack yields the circular placeholder (whose
compiled validator is the permissive passthrough accepting every object
unchanged); and a reference whose path cannot be walked fails with an
error naming the reference. -/
theorem C9_ref_resolution (specDoc schema : JsValue) :
    ((∃ fuel, SchemaConverter.openApiToJsonSchema specDoc fuel [] [] schema ≠ RRes.fuel)
     ∧ (∀ ref, ∃ fuel, SchemaConverter.resolveRef specDoc fuel [] [] ref ≠ RRes.fuel))
    ∧ (∀ fuel stack cache ref, ref ∈ stack →
        SchemaConverter.resolveRef specDoc (fuel + 1) stack cache ref
          = RRes.ok (circularPlaceholder ref) cache)
    ∧ (∀ ref, SchemaConverter.jsonSchemaToZod (circularPlaceholder ref)
          = .ok .zpassthrough)
    ∧ (∀ flds, zodParse .zpassthrough (.obj flds) = .ok (.obj flds))
    ∧ (∀ fuel stack cache ref, ref ∉ stack → lookupField cache ref = none →
        walkPath specDoc ((splitSlash ref).drop 1) = none →
        SchemaConverter.resolveRef specDoc (fuel + 1) stack cache ref
          = RRes.err ("Cannot resolve reference: " ++ ref)) := by
  refine ⟨⟨?_, ?_⟩, ?_, ?_, ?_, ?_⟩
  · refine ⟨(atoms specDoc ++ atoms schema).length * (8 * jsz specDoc + 8)
      + 8 * jsz schema + 6, ?_⟩
    have h := (SchemaConverter.fuel_sufficient specDoc (atoms specDoc ++ atoms schema)
        (fun a ha => List.mem_append.mpr (Or.inl ha))
        ((atoms specDoc ++ atoms schema).length * (8 * jsz specDoc + 8)
          + 8 * jsz schema + 6)).1
    refine h [] [] schema ⟨List.nodup_nil, List.nil_subset _⟩
        (fun a ha => List.mem_append.mpr (Or.inr ha)) ?_
    simp only [refMeasure, List.length_nil, Nat.sub_zero]
    exact Nat.le_refl _
  · intro ref
    refine ⟨(ref :: atoms specDoc).length * (8 * jsz specDoc + 8) + 1, ?_⟩
    have h := (SchemaConverter.fuel_sufficient specDoc (ref :: atoms specDoc)
        (fun a ha => List.mem_cons_of_mem _ ha)
        ((ref :: atoms specDoc).length * (8 * jsz specDoc + 8) + 1)
        ).2.2.2.2.2.2.2.2.2
    refine h [] [] ref ⟨List.nodup_nil, List.nil_subset _⟩
        (List.mem_cons_self _ _) ?_
    simp only [refMeasure, List.length_nil, Nat.sub_zero]
    exact Nat.le_refl _
  · intro fuel stack cache ref h
    simp [SchemaConverter.resolveRef, h]
  · intro ref
    simp [SchemaConverter.jsonSchemaToZod, circularPlaceholder, jsGet, jsIndex,
      lookupField, truthyOpt, truthy]
  · intro flds
    simp [zodParse]
  · intro fuel stack cache ref h1 h2 h3
    rw [List.drop_one] at h3
    simp [SchemaConverter.resolveRef, h1, h2, h3]

/-- C9 witness: on the self-referring `petSpec`, resolving the `Pet`
reference while it is already in progress yields the placeholder, and
resolving a nonexistent reference yields the naming error. -/
theorem C9_ref_resolution_witness :
    SchemaConverter.resolveRef petSpec 7 ["#/components/schemas/Pet"] []
        "#/components/schemas/Pet"
      = RRes.ok (circularPlaceholder "#/components/schemas/Pet") []
    ∧ SchemaConverter.resolveRef petSpec 7 [] [] "#/missing"
      = RRes.err ("Cannot resolve reference: " ++ "#/missing") :=
  ⟨(C9_ref_resolution petSpec .null).2.1 6 ["#/components/schemas/Pet"] []
      "#/components/schemas/Pet" (by simp),
   (C9_ref_resolution petSpec .null).2.2.2.2 6 [] [] "#/missing"
      (by simp) rfl (by rfl)⟩

/-- C10 witness: invoking `users_getUser` with
`\x7bid: "u1", junk: 7\x7d` hands the executor an object whose keys all
come from the declared properties (`id` only — `junk` is stripped). -/
theorem C10_strip_undeclared_witness :
    ∃ out, JsValue.obj [("id", .str "u1")] = .obj out
      ∧ ∀ kv ∈ out,
          kv.1 ∈ ([("id", JsValue.obj [("type", .str "string")])].map Prod.fst) := by
  refine C10_strip_undeclared exampleGetTool
      [("id", .obj [("type", .str "string")])]
      rfl rfl rfl rfl rfl rfl rfl
      (.obj [("id", .str "u1"), ("junk", .num 7)])
      (fun _ => .error (.error { name := "Error", message := "boom" }))
      { text := "Error: boom" } (.obj [("id", .str "u1")]) ?_
  simp [MarqetaMcpServer.createToolHandler, exampleGetTool,
    SchemaConverter.jsonSchemaToZod, SchemaConverter.compileShape,
    SchemaConverter.stringChecksOf, SchemaConverter.requiredContains,
    SchemaConverter.jsEntries, jsGet, jsIndex, lookupField, truthy, truthyOpt,
    jsPrimEq, zodParse, zodParseShape, runStrChecks, jsRejectionMessage,
    prefixIssues]

end MarqetaMcp
